import Mathlib

/-!
# Inventory / sales consistency engine of `src/App.js`

Shallow embedding of the state handlers of the `App` component (React state
`inventory`, `sales`, `newSale`, `editingSale`) and the properties of the
specification that concern them.

Modelling decisions, all taken from the source:

* Prices and totals are exact rationals and quantities are integers: the
  handlers are modelled in exact arithmetic.  The revenue figure of the sales
  summary is the one place where a claim compares the results of two
  floating-point sums; there each stored total is read as the nearest IEEE-754
  double and the reducer adds with round to nearest, ties to even (`Double`).
* A sale line is the object `{ ...item, quantity: 1 }` built by
  `handleAddToSale`, so a line has the shape of an inventory item and its
  reference to the catalog is the copied `id`.
* Line objects have identity.  `handleEditSale` copies the *array*
  (`items: [...sale.items]`), not the line objects, and
  `handleUpdateSaleItem` assigns `updatedItems[index].quantity = newQuantity`
  on the shared object.  Lines therefore live in a store (`heap`) and sales
  and drafts hold references into it.  Arrays and sale objects are never
  mutated in place by the source, so they are plain values.
* Every handler is one atomic transition of the state; a handler that returns
  early (or throws before its first `set…` call) returns the state unchanged.
* The item form `newItem` holds text typed by the user or, after
  `handleEditItem`, the numbers of the item; `parseInt` and `parseFloat` are
  modelled on text as the language defines them, in exact arithmetic.  A
  result that is not a finite number (`NaN`) has no place in `Item`, and a
  save that stores one is the outcome `savedNotANumber`.
* The built-in `Date` is a parameter (`Device`): the year and month a text
  denotes on the device, or none for an Invalid Date, and the clock.  The
  scenarios run on a device on UTC whose `Date` reads the date-time string
  format of the language the way V8 does (`isoDate`).
* The accumulators `salesByDate` and `productSales` are plain objects used as
  dictionaries (`JsObject`): a missing key reads the property inherited from
  `Object.prototype` when there is one, and `Object.keys` / `Object.entries`
  list array-index names first, in ascending order.
* `Array.prototype.sort` is the stable sort of the language on a comparator
  of numbers, modelled by insertion sort on the relation the comparator
  decides.
-/

namespace LueApp

/-- An inventory item (`inventory` element); also the shape of a sale line. -/
structure Item where
  id : Int
  name : String
  category : String
  price : ℚ
  quantity : Int
  photo : String
deriving DecidableEq

/-- A reference to a line object. -/
abbrev Ref := Nat

/-- A committed sale, `{ ...newSale, id: newId }`. -/
structure Sale where
  id : Int
  date : String
  items : List Ref
  total : ℚ
deriving DecidableEq

/-- The draft `newSale`; its `id` is `null` (or absent) unless an edit loaded it. -/
structure NewSale where
  id : Option Int
  date : String
  items : List Ref
  total : ℚ
deriving DecidableEq

/-- The React state of `App` that the handlers read and write, with the
store of line objects (`heap`, `next` is the first unused reference). -/
structure AppState where
  inventory : List Item
  sales : List Sale
  newSale : NewSale
  editingSale : Option Sale
  heap : Ref → Item
  next : Ref

/-- The line objects an array of references denotes in a state. -/
def AppState.lines (s : AppState) (refs : List Ref) : List Item :=
  refs.map s.heap

/-- The draft produced by the resets
`{ id: null, date: today, items: [], total: 0 }`. -/
def emptySale (today : String) : NewSale :=
  { id := none, date := today, items := [], total := 0 }

/-- The state after `loadData` with a stored inventory and no sales. -/
def initialState (today : String) (inventory : List Item) : AppState :=
  { inventory := inventory
    sales := []
    newSale := emptySale today
    editingSale := none
    heap := fun _ => { id := 0, name := "", category := "", price := 0, quantity := 0, photo := "" }
    next := 0 }

/-- The reducer `items.reduce((sum, item) => sum + (item.price * item.quantity), 0)`. -/
def itemsTotal (items : List Item) : ℚ :=
  items.foldl (fun sum item => sum + item.price * (item.quantity : ℚ)) 0

/-- The lookup `items.find(si => si.id === item.id)`. -/
def findSold (items : List Item) (item : Item) : Option Item :=
  items.find? (fun si => decide (si.id = item.id))

/-- The map of `handleCompleteSale` (lines 192-201): an item with a matching
line loses that line's quantity. -/
def deductStock (inventory : List Item) (items : List Item) : List Item :=
  inventory.map fun item =>
    match findSold items item with
    | some soldItem => { item with quantity := item.quantity - soldItem.quantity }
    | none => item

/-- The map of `handleEditSale`, `handleDeleteSale` and the cancel button
(lines 226-231, 247-252, 542-547): an item with a matching line gains that
line's quantity. -/
def restoreStock (inventory : List Item) (items : List Item) : List Item :=
  inventory.map fun item =>
    match findSold items item with
    | some soldItem => { item with quantity := item.quantity + soldItem.quantity }
    | none => item

/-- The value of `Math.max(...ids)` on a non-empty array (the source only
calls it under `sales.length > 0`). -/
def mathMax : List Int → Int
  | [] => 0
  | [x] => x
  | x :: y :: rest => max x (mathMax (y :: rest))

/-- The fresh id `sales.length > 0 ? Math.max(...sales.map(s => s.id)) + 1 : 1`. -/
def freshSaleId (sales : List Sale) : Int :=
  if 0 < sales.length then mathMax (sales.map fun s => s.id) + 1 else 1

/-- The handler `handleDeleteItem(id)`. -/
def handleDeleteItem (s : AppState) (id : Int) : AppState :=
  { s with inventory := s.inventory.filter fun item => decide (item.id ≠ id) }

/-- The handler `handleAddToSale(item)`: a fresh line object
`{ ...item, quantity: 1 }` is appended to the draft. -/
def handleAddToSale (s : AppState) (item : Item) : AppState :=
  if item.quantity ≤ 0 then s
  else
    { s with
      heap := Function.update s.heap s.next { item with quantity := 1 }
      next := s.next + 1
      newSale :=
        { s.newSale with
          items := s.newSale.items ++ [s.next]
          total := s.newSale.total + item.price } }

/-- The handler `handleUpdateSaleItem(index, change)`.  Reading
`newSale.items[index]` out of range throws before any state is set. -/
def handleUpdateSaleItem (s : AppState) (index : Nat) (change : Int) : AppState :=
  match s.newSale.items.get? index with
  | none => s
  | some r =>
    let newQuantity := (s.heap r).quantity + change
    if newQuantity < 1 then s
    else
      let updatedItems := s.newSale.items
      let originalItem := s.inventory.find? (fun i => decide (i.id = (s.heap r).id))
      let insufficient :=
        match originalItem with
        | some original => decide (newQuantity - (s.heap r).quantity > original.quantity)
        | none => false
      if insufficient then s
      else
        let heap := Function.update s.heap r { s.heap r with quantity := newQuantity }
        { s with
          heap := heap
          newSale :=
            { s.newSale with
              items := updatedItems
              total := itemsTotal (updatedItems.map heap) } }

/-- The remove button of a draft line (lines 503-511):
`updatedItems.splice(index, 1)` and the total recomputed. -/
def removeSaleItem (s : AppState) (index : Nat) : AppState :=
  let updatedItems := s.newSale.items.eraseIdx index
  { s with
    newSale :=
      { s.newSale with
        items := updatedItems
        total := itemsTotal (s.lines updatedItems) } }

/-- The date field of the sale form, `setNewSale({...newSale, date: text})`. -/
def setSaleDate (s : AppState) (text : String) : AppState :=
  { s with newSale := { s.newSale with date := text } }

/-- The id `editingSale?.id || (fresh id)`: the number `0` is falsy. -/
def commitSaleId (s : AppState) : Int :=
  match s.editingSale with
  | some editing => if editing.id ≠ 0 then editing.id else freshSaleId s.sales
  | none => freshSaleId s.sales

/-- The sale object `{ ...newSale, id: newId }`. -/
def saleRecord (draft : NewSale) (newId : Int) : Sale :=
  { id := newId, date := draft.date, items := draft.items, total := draft.total }

/-- The handler `handleCompleteSale()`; `today` is the clock read by the reset. -/
def handleCompleteSale (today : String) (s : AppState) : AppState :=
  if s.newSale.items.length = 0 then s
  else
    let updatedInventory := deductStock s.inventory (s.lines s.newSale.items)
    let newId := commitSaleId s
    let updatedSales :=
      match s.editingSale with
      | some editing =>
        s.sales.map fun sale =>
          if sale.id = editing.id then saleRecord s.newSale newId else sale
      | none => s.sales ++ [saleRecord s.newSale newId]
    { s with
      inventory := updatedInventory
      sales := updatedSales
      newSale := emptySale today
      editingSale := none }

/-- The handler `handleEditSale(sale)`. -/
def handleEditSale (s : AppState) (sale : Sale) : AppState :=
  { s with
    inventory := restoreStock s.inventory (s.lines sale.items)
    newSale := { id := some sale.id, date := sale.date, items := sale.items, total := sale.total }
    editingSale := some sale }

/-- The handler `handleDeleteSale(id)`.  When no sale has the id,
`saleToDelete` is undefined: the map throws on a non-empty inventory and is
the identity on an empty one, and the filter keeps every sale, so the state
is unchanged either way. -/
def handleDeleteSale (s : AppState) (id : Int) : AppState :=
  match s.sales.find? (fun sale => decide (sale.id = id)) with
  | none => s
  | some saleToDelete =>
    { s with
      inventory := restoreStock s.inventory (s.lines saleToDelete.items)
      sales := s.sales.filter fun sale => decide (sale.id ≠ id) }

/-- The button "Cancelar Edição" (lines 537-560), rendered only while
`editingSale` is set. -/
def cancelEdit (today : String) (s : AppState) : AppState :=
  match s.editingSale with
  | none => s
  | some _ =>
    { s with
      inventory := restoreStock s.inventory (s.lines s.newSale.items)
      newSale := emptySale today
      editingSale := none }

/-- The inner reducer of "Itens Vendidos" (line 805),
`sale.items.reduce((sum, item) => sum + item.quantity, 0)`. -/
def saleUnits (s : AppState) (sale : Sale) : Int :=
  (s.lines sale.items).foldl (fun sum item => sum + item.quantity) 0

/-- A finite number of the language, an IEEE-754 double: the rational
`mantissa * 2 ^ exponent`.  The numbers produced by `Double.ofRatio` have a
mantissa below `2 ^ 53` in absolute value and an exponent of at least `-1074`;
the exponent is not bounded above, so a sum beyond the range of a double,
where the language gives `Infinity`, is outside the model. -/
structure Double where
  mantissa : Int
  exponent : Int
deriving DecidableEq

/-- The rational a double stands for. -/
def Double.value (x : Double) : ℚ :=
  (x.mantissa : ℚ) * (2 : ℚ) ^ x.exponent

/-- The quotient `num / den` rounded to an integer, a tie going to the even
neighbour. -/
def roundHalfEven (num den : Nat) : Nat :=
  let quotient := num / den
  let remainder := num % den
  if den < 2 * remainder then quotient + 1
  else if 2 * remainder = den then (if quotient % 2 = 0 then quotient else quotient + 1)
  else quotient

/-- The number of binary digits of `n`, computed with `fuel` halvings at most
(`bitLength n n` is the number of binary digits of `n`). -/
def bitLength : Nat → Nat → Nat
  | 0, _ => 0
  | fuel + 1, n => if n = 0 then 0 else bitLength fuel (n / 2) + 1

/-- The double nearest to the ratio `n / d` (`d` positive) with the given
sign, ties to even: the ratio lies in `[2 ^ k, 2 ^ (k + 1))`, the unit of the
mantissa is `2 ^ (k - 52)`, or `2 ^ (-1074)` for a subnormal number, and the
ratio is rounded to a whole number of units. -/
def Double.ofRatio (negative : Bool) (n d : Nat) : Double :=
  if n = 0 then { mantissa := 0, exponent := 0 }
  else
    let k0 : Int := (bitLength n n : Int) - (bitLength d d : Int)
    let atLeast : Bool :=
      if 0 ≤ k0 then decide (d * 2 ^ k0.toNat ≤ n) else decide (d ≤ n * 2 ^ (-k0).toNat)
    let k : Int := if atLeast then k0 else k0 - 1
    let e : Int := max (k - 52) (-1074)
    let units : Nat :=
      if 0 ≤ e then roundHalfEven n (d * 2 ^ e.toNat) else roundHalfEven (n * 2 ^ (-e).toNat) d
    let (m, e) := if units = 2 ^ 53 then (2 ^ 52, e + 1) else (units, e)
    if m = 0 then { mantissa := 0, exponent := 0 }
    else { mantissa := if negative then -(m : Int) else m, exponent := e }

/-- The double nearest to a rational: the number a stored value is as a
number of the language. -/
def Double.ofRat (q : ℚ) : Double :=
  Double.ofRatio (decide (q < 0)) q.num.natAbs q.den

/-- The operator `+` on two numbers: the exact sum, rounded to the nearest
double. -/
def Double.add (a b : Double) : Double :=
  let e := min a.exponent b.exponent
  let m : Int := a.mantissa * 2 ^ (a.exponent - e).toNat + b.mantissa * 2 ^ (b.exponent - e).toNat
  if 0 ≤ e then Double.ofRatio (decide (m < 0)) (m.natAbs * 2 ^ e.toNat) 1
  else Double.ofRatio (decide (m < 0)) m.natAbs (2 ^ (-e).toNat)

/-- The three figures of "Resumo de Vendas" (lines 791, 797, 804-805) over a
list of sales: `length`, `reduce((total, sale) => total + sale.total, 0)`, a
sum of doubles taken from left to right from `0` (a stored total is the double
nearest to the rational the model holds for it), and
`reduce((total, sale) => total + sale.items.reduce(...), 0)`, a sum of
integers.  The revenue is given as the rational the resulting double stands
for. -/
def periodSummary (s : AppState) (sales : List Sale) : Nat × ℚ × Int :=
  (sales.length,
   (sales.foldl (fun total sale => Double.add total (Double.ofRat sale.total))
      { mantissa := 0, exponent := 0 }).value,
   sales.foldl (fun total sale => total + saleUnits s sale) 0)

/-- What the user can do on the inventory and sales screens.  `catalogEdit`
stands for a save on the inventory screen (`handleAddItem`), whose only
effect on this state is a new `inventory` array. -/
inductive Action where
  | catalogEdit (inventory : List Item)
  | deleteItem (id : Int)
  | addToSale (item : Item)
  | updateSaleItem (index : Nat) (change : Int)
  | removeSaleItem (index : Nat)
  | setSaleDate (text : String)
  | completeSale (today : String)
  | editSale (sale : Sale)
  | cancelEdit (today : String)
  | deleteSale (id : Int)

/-- The arguments the screens can pass: the item picker lists inventory
items and the history lists ledger sales. -/
def actionEnabled (s : AppState) : Action → Prop
  | .addToSale item => item ∈ s.inventory
  | .editSale sale => sale ∈ s.sales
  | _ => True

/-- The state after an action. -/
def applyAction (s : AppState) : Action → AppState
  | .catalogEdit inventory => { s with inventory := inventory }
  | .deleteItem id => handleDeleteItem s id
  | .addToSale item => handleAddToSale s item
  | .updateSaleItem index change => handleUpdateSaleItem s index change
  | .removeSaleItem index => removeSaleItem s index
  | .setSaleDate text => setSaleDate s text
  | .completeSale today => handleCompleteSale today s
  | .editSale sale => handleEditSale s sale
  | .cancelEdit today => cancelEdit today s
  | .deleteSale id => handleDeleteSale s id

/-- The states the application reaches from an empty ledger and an empty
draft, whatever the stored inventory. -/
inductive Reachable : AppState → Prop
  | init (today : String) (inventory : List Item) : Reachable (initialState today inventory)
  | step {s : AppState} (a : Action) :
      Reachable s → actionEnabled s a → Reachable (applyAction s a)

/-- Runs a list of actions from a state, first action first. -/
def runActions (s : AppState) (actions : List Action) : AppState :=
  actions.foldl applyAction s

/-- Every action of the list is enabled in the state it is applied to. -/
def actionsEnabled (s : AppState) : List Action → Prop
  | [] => True
  | a :: rest => actionEnabled s a ∧ actionsEnabled (applyAction s a) rest

/-- The ledger invariant of the id scheme of `handleCompleteSale`: sale ids
are pairwise distinct and at least 1, and so is the id of the sale being
edited. -/
def LedgerInv (s : AppState) : Prop :=
  (s.sales.map fun sale => sale.id).Nodup ∧
  (∀ sale ∈ s.sales, 1 ≤ sale.id) ∧
  (∀ editing, s.editingSale = some editing → 1 ≤ editing.id)

/-! ### Concrete states used by the scenarios -/

/-- The catalog item of the scenarios, with a given stock. -/
def shirt (quantity : Int) : Item :=
  { id := 1, name := "Shirt", category := "Tops", price := 299 / 10
    quantity := quantity, photo := "" }

/-- One shirt in stock; a line is added and raised by the "+" button. -/
def oversoldDraft : AppState :=
  runActions (initialState "2024-05-01" [shirt 1])
    [.addToSale (shirt 1), .updateSaleItem 0 1]

/-- Ten shirts in stock; one line of one shirt is sold. -/
def soldOne : AppState :=
  runActions (initialState "2024-05-01" [shirt 10])
    [.addToSale (shirt 10), .completeSale "2024-05-01"]

/-- The sale recorded in `soldOne`. -/
def saleOfOne : Sale :=
  { id := 1, date := "2024-05-01", items := [0], total := 299 / 10 }

/-- The actions after `soldOne`: the sale is opened for editing, its line is
raised by the "+" button, and the edit is cancelled. -/
def editRaiseCancel : List Action :=
  [.editSale saleOfOne, .updateSaleItem 0 1, .cancelEdit "2024-05-02"]

/-- Ten shirts in stock; a line is added and raised by 3 (the draft of the
specification's scenario). -/
def draftOfFour : AppState :=
  runActions (initialState "2024-05-01" [shirt 10])
    [.addToSale (shirt 10), .updateSaleItem 0 3]

/-- The draft of four shirts, committed. -/
def soldFour : AppState :=
  handleCompleteSale "2024-05-01" draftOfFour

/-- The sale recorded in `soldFour`. -/
def saleOfFour : Sale :=
  { id := 1, date := "2024-05-01", items := [0], total := 598 / 5 }

/-- The sale of four opened for editing and its only line removed. -/
def editEmptied : AppState :=
  removeSaleItem (handleEditSale soldFour saleOfFour) 0

/-- Ten shirts in stock; the same shirt is added to the draft twice. -/
def twoLineDraft : AppState :=
  runActions (initialState "2024-05-01" [shirt 10])
    [.addToSale (shirt 10), .addToSale (shirt 10)]

/-- The two-line draft, committed. -/
def twoLineSold : AppState :=
  handleCompleteSale "2024-05-01" twoLineDraft

/-- Ten shirts in stock; three sales of one shirt each. -/
def threeSold : AppState :=
  runActions (initialState "2024-05-01" [shirt 10])
    [.addToSale (shirt 10), .completeSale "2024-05-01",
     .addToSale (shirt 9), .completeSale "2024-05-01",
     .addToSale (shirt 8), .completeSale "2024-05-01"]

/-- The sale of one shirt is opened for editing and then deleted in the
history, which is still on screen. -/
def editedThenDeleted : AppState :=
  runActions soldOne [.editSale saleOfOne, .deleteSale 1]

/-- The invariant of the line store: every allocated line object has a
quantity of at least 1, and the draft and the ledger only hold allocated
references. -/
def LinesInv (s : AppState) : Prop :=
  (∀ r, r < s.next → 1 ≤ (s.heap r).quantity) ∧
  (∀ r ∈ s.newSale.items, r < s.next) ∧
  (∀ sale ∈ s.sales, ∀ r ∈ sale.items, r < s.next)

/-- Ten shirts in stock; a line is added and the shirt is then deleted from
the catalog on the inventory screen. -/
def orphanDraft : AppState :=
  runActions (initialState "2024-05-01" [shirt 10])
    [.addToSale (shirt 10), .deleteItem 1]
/-- The sale of one shirt opened for editing: the draft and the ledger entry
hold the same line. -/
def editingOne : AppState :=
  runActions soldOne [.editSale saleOfOne]

/-- Ten shirts in stock and one line of one shirt in the draft. -/
def oneLineDraft : AppState :=
  runActions (initialState "2024-05-01" [shirt 10]) [.addToSale (shirt 10)]

/-! ### The item form of the inventory screen -/

/-- A field of the item form: the text of a `TextInput`, or the number that
`handleEditItem` puts there with the item being edited. -/
inductive FormField (α : Type) where
  | text (value : String)
  | number (value : α)
deriving DecidableEq

/-- The form state `newItem`. -/
structure ItemForm where
  id : Option Int
  name : String
  category : String
  price : FormField ℚ
  quantity : FormField Int
  photo : String
deriving DecidableEq

/-- The form after a save (lines 127-134). -/
def blankItem : ItemForm :=
  { id := none, name := "", category := "", price := .text "", quantity := .text ""
    photo := "https://placehold.co/150x150/?text=Item+Photo" }

/-- The handler `handleEditItem(item)`, `setNewItem(item)`. -/
def handleEditItem (item : Item) : ItemForm :=
  { id := some item.id, name := item.name, category := item.category
    price := .number item.price, quantity := .number item.quantity, photo := item.photo }

/-- The truthiness tested by `!newItem.price` and `!newItem.quantity`: the
empty text and the number 0 are falsy. -/
def FormField.truthy {α : Type} [DecidableEq α] [Zero α] : FormField α → Bool
  | .text value => decide (value ≠ "")
  | .number value => decide (value ≠ 0)

/-- The characters that `parseInt` and `parseFloat` skip at the start of
their argument (white space and line terminators of the language). -/
def isStrWhiteSpace (c : Char) : Bool :=
  [0x9, 0xA, 0xB, 0xC, 0xD, 0x20, 0xA0, 0x1680, 0x2028, 0x2029, 0x202F, 0x205F, 0x3000,
    0xFEFF].contains c.toNat || (0x2000 ≤ c.toNat && c.toNat ≤ 0x200A)

/-- The value of a character as a digit of the radix, if it is one. -/
def digitOf (radix : Nat) (c : Char) : Option Nat :=
  let value : Option Nat :=
    if 48 ≤ c.toNat ∧ c.toNat ≤ 57 then some (c.toNat - 48)
    else if 97 ≤ c.toNat ∧ c.toNat ≤ 122 then some (c.toNat - 87)
    else if 65 ≤ c.toNat ∧ c.toNat ≤ 90 then some (c.toNat - 55)
    else none
  value.filter fun d => decide (d < radix)

/-- The longest run of digits of the radix at the start of the characters,
as digit values. -/
def leadingDigits (radix : Nat) : List Char → List Nat
  | [] => []
  | c :: rest =>
    match digitOf radix c with
    | some d => d :: leadingDigits radix rest
    | none => []

/-- The number written by digit values in a radix. -/
def digitsValue (radix : Nat) (digits : List Nat) : Nat :=
  digits.foldl (fun acc d => acc * radix + d) 0

/-- The sign read by `parseInt` and `parseFloat` and the characters after it. -/
def readSign : List Char → Bool × List Char
  | '-' :: rest => (true, rest)
  | '+' :: rest => (false, rest)
  | chars => (false, chars)

/-- The built-in `parseInt(text)` without a radix: leading white space, a
sign, a `0x` prefix for radix 16, then the longest run of digits; `none` is
`NaN`. -/
def jsParseInt (text : String) : Option Int :=
  let (negative, unsigned) := readSign (text.toList.dropWhile isStrWhiteSpace)
  let (radix, body) :=
    match unsigned with
    | '0' :: 'x' :: rest => (16, rest)
    | '0' :: 'X' :: rest => (16, rest)
    | chars => (10, chars)
  let digits := leadingDigits radix body
  if digits.isEmpty then none
  else
    let value : Int := digitsValue radix digits
    some (if negative then -value else value)

/-- The exponent part `e`, sign, digits at the start of the characters, if
there is one with at least one digit. -/
def readExponent : List Char → Int
  | c :: rest =>
    if c = 'e' ∨ c = 'E' then
      let (negative, unsigned) := readSign rest
      let digits := leadingDigits 10 unsigned
      if digits.isEmpty then 0
      else if negative then -(digitsValue 10 digits : Int) else (digitsValue 10 digits : Int)
    else 0
  | [] => 0

/-- The decimal literal at the start of a text as `parseFloat` reads it:
mantissa digits as an integer and the power of ten to apply; `none` when no
decimal literal starts the text (`NaN`) and for the literal `Infinity`. -/
def jsParseDecimal (text : String) : Option (Int × Int) :=
  let (negative, unsigned) := readSign (text.toList.dropWhile isStrWhiteSpace)
  let whole := leadingDigits 10 unsigned
  let afterWhole := unsigned.drop whole.length
  let fraction :=
    match afterWhole with
    | '.' :: rest => leadingDigits 10 rest
    | _ => []
  let afterMantissa :=
    match afterWhole with
    | '.' :: rest => rest.drop fraction.length
    | chars => chars
  if whole.isEmpty && fraction.isEmpty then none
  else
    let mantissa : Int := digitsValue 10 (whole ++ fraction)
    some (if negative then -mantissa else mantissa,
      readExponent afterMantissa - (fraction.length : Int))

/-- The built-in `parseFloat(text)` in exact arithmetic; `none` is a result
that is not a finite number (`NaN`, or the literal `Infinity`). -/
def jsParseFloat (text : String) : Option ℚ :=
  (jsParseDecimal text).map fun (mantissa, exponent) => (mantissa : ℚ) * (10 : ℚ) ^ exponent

/-- The call `parseFloat(newItem.price)`: a number field is printed and read
back as itself. -/
def parsePrice : FormField ℚ → Option ℚ
  | .text value => jsParseFloat value
  | .number value => some value

/-- The first decimal digit of a positive number. -/
def leadingDigit (n : Nat) : Nat :=
  ((Nat.toDigits 10 n).head?.map fun c => c.toNat - 48).getD 0

/-- The call `parseInt(newItem.quantity)`: a number field is printed and read
back, as itself below 10^21 and, in exponent form from there on, as its
first digit. -/
def parseQuantity : FormField Int → Option Int
  | .text value => jsParseInt value
  | .number value =>
    if value.natAbs < 10 ^ 21 then some value
    else some (if value < 0 then -(leadingDigit value.natAbs : Int) else leadingDigit value.natAbs)

/-- The fresh id `inventory.length > 0 ? Math.max(...inventory.map(i => i.id)) + 1 : 1`. -/
def freshItemId (inventory : List Item) : Int :=
  if 0 < inventory.length then mathMax (inventory.map fun i => i.id) + 1 else 1

/-- The id `newItem.id || (fresh id)`: `null` and the number `0` are falsy. -/
def saveItemId (inventory : List Item) (formId : Option Int) : Int :=
  match formId with
  | some id => if id ≠ 0 then id else freshItemId inventory
  | none => freshItemId inventory

/-- What `handleAddItem` does. -/
inductive AddItemResult where
  /-- The alert "Preencha todos os campos": the handler returns before any
  state is set. -/
  | rejected
  /-- The state after `setInventory(updatedInventory)`; the form is reset to
  `blankItem`. -/
  | saved (s : AppState)
  /-- The inventory was set with a new item whose price or quantity is not
  a finite number (`NaN`), which `Item` does not hold. -/
  | savedNotANumber

/-- The handler `handleAddItem()` on the form `newItem`. -/
def handleAddItem (s : AppState) (newItem : ItemForm) : AddItemResult :=
  if newItem.name = "" ∨ newItem.category = "" ∨ newItem.price.truthy = false
      ∨ newItem.quantity.truthy = false then .rejected
  else
    let newId := saveItemId s.inventory newItem.id
    match parsePrice newItem.price, parseQuantity newItem.quantity with
    | some price, some quantity =>
      .saved
        { s with
          inventory :=
            (s.inventory.filter fun item => decide (some item.id ≠ newItem.id)) ++
              [{ id := newId, name := newItem.name, category := newItem.category
                 price := price, quantity := quantity, photo := newItem.photo }] }
    | _, _ => .savedNotANumber

/-- The form of the specification's scenario. -/
def shirtForm : ItemForm :=
  { blankItem with
    name := "Shirt", category := "Tops", price := .text "29.90", quantity := .text "10" }
/-- The empty catalog. -/
def emptyCatalog : AppState :=
  initialState "2024-05-01" []

/-- The catalog after the scenario's first save. -/
def savedShirt : AppState :=
  { emptyCatalog with
    inventory :=
      [{ id := 1, name := "Shirt", category := "Tops", price := 299 / 10, quantity := 10
         photo := blankItem.photo }] }

/-- A second form, without id. -/
def hatForm : ItemForm :=
  { blankItem with
    name := "Hat", category := "Caps", price := .text "15", quantity := .text "3" }

/-- The scenario's shirt opened by "Editar", with a new name typed in. -/
def renamedShirtForm : ItemForm :=
  { handleEditItem
      { id := 1, name := "Shirt", category := "Tops", price := 299 / 10, quantity := 10
        photo := blankItem.photo } with
    name := "Polo shirt" }

/-- A form whose quantity text is a negative number. -/
def negativeForm : ItemForm :=
  { blankItem with
    name := "Shirt", category := "Tops", price := .text "29.90", quantity := .text "-5" }

/-- A form whose quantity text is not a number. -/
def wordForm : ItemForm :=
  { blankItem with
    name := "Shirt", category := "Tops", price := .text "29.90", quantity := .text "abc" }

/-- The catalog after the renamed shirt is saved. -/
def renamedCatalog : AppState :=
  { savedShirt with
    inventory :=
      [{ id := 1, name := "Polo shirt", category := "Tops", price := 299 / 10, quantity := 10
         photo := blankItem.photo }] }

/-! ### The dashboard: dates and plain objects used as dictionaries -/

/-- What the dashboard reads from the device through the built-in `Date`. -/
structure Device where
  /-- The pair `(getFullYear(), getMonth())` of `new Date(text)`, `none` for
  an Invalid Date (whose getters return `NaN`). -/
  dateOf : String → Option (Int × Nat)
  /-- The pair `(getFullYear(), getMonth())` of `new Date()`. -/
  now : Int × Nat

/-- The values of `selectedDateRange` offered by the picker; every value
other than `'daily'` and `'monthly'` takes the last branch. -/
inductive DateRange where
  | daily
  | monthly
  | yearly
deriving DecidableEq

/-- The date object `sale.date ? new Date(sale.date) : new Date()`. -/
def saleDateOf (device : Device) (sale : Sale) : Option (Int × Nat) :=
  if sale.date ≠ "" then device.dateOf sale.date else some device.now

/-- The comparison `a === b` of two getter results: `NaN` equals nothing. -/
def sameNumber {α : Type} [DecidableEq α] : Option α → Option α → Bool
  | some a, some b => decide (a = b)
  | _, _ => false

/-- The function `getFilteredSales()` on the state `sales`, `selectedDateRange`
and `filterDate`. -/
def getFilteredSales (device : Device) (selectedDateRange : DateRange) (filterDate : String)
    (sales : List Sale) : List Sale :=
  let filterDateObj := device.dateOf filterDate
  sales.filter fun sale =>
    let saleDate := saleDateOf device sale
    match selectedDateRange with
    | .daily => decide (sale.date = filterDate)
    | .monthly =>
      sameNumber (saleDate.map Prod.fst) (filterDateObj.map Prod.fst) &&
        sameNumber (saleDate.map Prod.snd) (filterDateObj.map Prod.snd)
    | .yearly => sameNumber (saleDate.map Prod.fst) (filterDateObj.map Prod.fst)

/-- The value of a property of the accumulator objects: a number, or the text
that `+` makes of a value that is not a number. -/
inductive Cell (α : Type) where
  | number (value : α)
  | text
deriving DecidableEq

/-- An object created by `{}`: its own properties in creation order. -/
abbrev JsObject (α : Type) := List (String × Cell α)

/-- The property names every object created by `{}` inherits from
`Object.prototype`. -/
def inheritedKeys : List String :=
  ["constructor", "__defineGetter__", "__defineSetter__", "hasOwnProperty",
   "__lookupGetter__", "__lookupSetter__", "isPrototypeOf", "propertyIsEnumerable",
   "toString", "valueOf", "__proto__", "toLocaleString"]

/-- The own property of a key, if the object has one. -/
def ownValue {α : Type} (object : JsObject α) (key : String) : Option (Cell α) :=
  (object.find? fun entry => decide (entry.1 = key)).map Prod.snd

/-- Assignment to an own property: the property keeps its place. -/
def setOwn {α : Type} (object : JsObject α) (key : String) (cell : Cell α) : JsObject α :=
  object.map fun entry => if entry.1 = key then (key, cell) else entry

/-- The statement `object[key] = (object[key] || 0) + amount`.  An own number
is added to (`0` is falsy and replaced by `0`); an own text stays a text; a
missing key reads the inherited property when there is one, which is truthy
and not a number, so that `+` makes a text, stored as a new own property
except under `__proto__`, whose setter ignores it; any other missing key is
created with `0 + amount`. -/
def accumulate {α : Type} [DecidableEq α] [Zero α] [Add α] (object : JsObject α) (key : String)
    (amount : α) : JsObject α :=
  match ownValue object key with
  | some (.number value) => setOwn object key (.number ((if value = 0 then 0 else value) + amount))
  | some .text => object
  | none =>
    if key = "__proto__" then object
    else if key ∈ inheritedKeys then object ++ [(key, .text)]
    else object ++ [(key, .number (0 + amount))]

/-- The array index a property name denotes, if it is the canonical decimal
form of a number below 2^32 - 1. -/
def arrayIndex (key : String) : Option Nat :=
  let digits := leadingDigits 10 key.toList
  if key.toList ≠ [] ∧ digits.length = key.toList.length
      ∧ (digits.length = 1 ∨ digits.head? ≠ some 0) ∧ digitsValue 10 digits < 2 ^ 32 - 1 then
    some (digitsValue 10 digits)
  else none

/-- The own properties in the order of `Object.keys`, `Object.values` and
`Object.entries`: array indices in ascending order, then the other names in
creation order. -/
def ownEntries {α : Type} (object : JsObject α) : JsObject α :=
  (object.filter fun entry => (arrayIndex entry.1).isSome).insertionSort
      (fun a b => (arrayIndex a.1).getD 0 ≤ (arrayIndex b.1).getD 0) ++
    object.filter fun entry => !(arrayIndex entry.1).isSome

/-- The text of `getFullYear()`, `"NaN"` for an Invalid Date. -/
def yearText (date : Option (Int × Nat)) : String :=
  match date with
  | some (year, _) => toString year
  | none => "NaN"

/-- The text `(getMonth() + 1).toString().padStart(2, '0')`. -/
def monthText (date : Option (Int × Nat)) : String :=
  match date with
  | some (_, month) =>
    if (toString (month + 1)).length < 2 then "0" ++ toString (month + 1) else toString (month + 1)
  | none => "NaN"

/-- The bucket key `dateKey` of a sale in `getSalesData` (lines 302-311);
in daily mode `sale.date.split('T')[0]`, the text before the first `T`. -/
def dateKey (device : Device) (selectedDateRange : DateRange) (sale : Sale) : String :=
  match selectedDateRange with
  | .daily => String.mk (sale.date.toList.takeWhile fun c => decide (c ≠ 'T'))
  | .monthly => yearText (saleDateOf device sale) ++ "-" ++ monthText (saleDateOf device sale)
  | .yearly => yearText (saleDateOf device sale)

/-- The object `salesByDate` after the `forEach` over the filtered sales. -/
def salesByDate (device : Device) (selectedDateRange : DateRange) (filtered : List Sale) :
    JsObject ℚ :=
  filtered.foldl
    (fun object sale => accumulate object (dateKey device selectedDateRange sale) sale.total) []

/-- The chart data `{ labels, data }`. -/
structure SalesData where
  labels : List String
  data : List (Cell ℚ)
deriving DecidableEq

/-- The part of `getSalesData()` after the filter (lines 298-330): the
buckets of the sales it is fed, or the placeholder when there is no bucket. -/
def salesSeries (device : Device) (selectedDateRange : DateRange) (filtered : List Sale) :
    SalesData :=
  let buckets := ownEntries (salesByDate device selectedDateRange filtered)
  if buckets.length = 0 then { labels := ["Nenhum dado"], data := [.number 0] }
  else { labels := buckets.map Prod.fst, data := buckets.map Prod.snd }

/-- The function `getSalesData()`. -/
def getSalesData (device : Device) (selectedDateRange : DateRange) (filterDate : String)
    (sales : List Sale) : SalesData :=
  salesSeries device selectedDateRange
    (getFilteredSales device selectedDateRange filterDate sales)

/-- The number of days of a month of a year. -/
def daysInMonth (year month : Nat) : Nat :=
  if month = 2 then
    if year % 4 = 0 ∧ (year % 100 ≠ 0 ∨ year % 400 = 0) then 29 else 28
  else if month = 4 ∨ month = 6 ∨ month = 9 ∨ month = 11 then 30
  else 31

/-- The number `DayFromYear(y)` of the language: the day of 1 January of a
year, counted from 1 January 1970. -/
def dayFromYear (year : Int) : Int :=
  365 * (year - 1970) + (year - 1969) / 4 - (year - 1901) / 100 + (year - 1601) / 400

/-- The number `InLeapYear` of the language: 1 in a leap year, 0 otherwise. -/
def inLeapYear (year : Int) : Int :=
  if year % 4 ≠ 0 then 0 else if year % 100 ≠ 0 then 1 else if year % 400 ≠ 0 then 0 else 1

/-- The day within the year on which a month (0 for January) starts, from the
table of `MonthFromTime`. -/
def monthStart (year : Int) (month : Nat) : Int :=
  match month with
  | 0 => 0
  | 1 => 31
  | 2 => 59 + inLeapYear year
  | 3 => 90 + inLeapYear year
  | 4 => 120 + inLeapYear year
  | 5 => 151 + inLeapYear year
  | 6 => 181 + inLeapYear year
  | 7 => 212 + inLeapYear year
  | 8 => 243 + inLeapYear year
  | 9 => 273 + inLeapYear year
  | 10 => 304 + inLeapYear year
  | 11 => 334 + inLeapYear year
  | _ => 365 + inLeapYear year

/-- The number `MakeDay(year, month, date)` for a month of 0 to 11: the day
of the first of the month plus `date - 1`, so that a date past the end of the
month counts on into the next one. -/
def makeDay (year : Int) (month : Nat) (date : Nat) : Int :=
  dayFromYear year + monthStart year month + (date : Int) - 1

/-- The pair `(YearFromTime, MonthFromTime)` of a day number that lies in
the year `near`, the year before or the year after: the largest year that
starts on or before the day, and the last month that does. -/
def yearMonthOfDay (near : Int) (day : Int) : Int × Nat :=
  let year :=
    if dayFromYear (near + 1) ≤ day then near + 1
    else if dayFromYear near ≤ day then near
    else near - 1
  let dayWithinYear := day - dayFromYear year
  (year, ((List.range 12).filter fun month => decide (monthStart year month ≤ dayWithinYear)).length - 1)

/-- A number written with exactly `width` digits at the start of the
characters, and the characters after it. -/
def fixedNumber (width : Nat) (chars : List Char) : Option (Nat × List Char) :=
  let digits := leadingDigits 10 chars
  if digits.length = width then some (digitsValue 10 digits, chars.drop width) else none

/-- The year of the date-time string format: four digits, or a sign and six
digits other than `-000000`. -/
def readYear : List Char → Option (Int × List Char)
  | '+' :: rest => (fixedNumber 6 rest).map fun (year, after) => ((year : Int), after)
  | '-' :: rest =>
    (fixedNumber 6 rest).bind fun (year, after) =>
      if year = 0 then none else some (-(year : Int), after)
  | chars => (fixedNumber 4 chars).map fun (year, after) => ((year : Int), after)

/-- The date of the date-time string format, `YYYY`, `YYYY-MM` or
`YYYY-MM-DD`, as year, month (1 to 12) and day (1 to 31; a missing month or
day is 1), and the characters after it. -/
def readDate (chars : List Char) : Option (Int × Nat × Nat × List Char) :=
  (readYear chars).bind fun (year, afterYear) =>
    match afterYear with
    | '-' :: monthOn =>
      (fixedNumber 2 monthOn).bind fun (month, afterMonth) =>
        if month < 1 ∨ 12 < month then none
        else
          match afterMonth with
          | '-' :: dayOn =>
            (fixedNumber 2 dayOn).bind fun (day, afterDay) =>
              if day < 1 ∨ 31 < day then none else some (year, month, day, afterDay)
          | _ => some (year, month, 1, afterMonth)
    | _ => some (year, 1, 1, afterYear)

/-- The milliseconds written by the digits after the decimal point of the
seconds: the first three digits, with zeros for missing ones. -/
def readMilliseconds (digits : List Nat) : Nat :=
  digitsValue 10 ((digits ++ [0, 0]).take 3)

/-- The time of day of the date-time string format, `HH:mm`, `HH:mm:ss` or
`HH:mm:ss.sss`, in milliseconds since midnight, and the characters after it.
The hour 24 is read only as `24:00:00.000`. -/
def readTimeOfDay (chars : List Char) : Option (Nat × List Char) :=
  (fixedNumber 2 chars).bind fun (hour, afterHour) =>
    match afterHour with
    | ':' :: minuteOn =>
      (fixedNumber 2 minuteOn).bind fun (minute, afterMinute) =>
        if 24 < hour ∨ 59 < minute ∨ (hour = 24 ∧ 0 < minute) then none
        else
          match afterMinute with
          | ':' :: secondOn =>
            (fixedNumber 2 secondOn).bind fun (second, afterSecond) =>
              if 59 < second ∨ (hour = 24 ∧ 0 < second) then none
              else
                match afterSecond with
                | '.' :: fractionOn =>
                  let digits := leadingDigits 10 fractionOn
                  if digits = [] ∨ (hour = 24 ∧ 0 < digitsValue 10 digits) then none
                  else
                    some (hour * 3600000 + minute * 60000 + second * 1000
                        + readMilliseconds digits,
                      fractionOn.drop digits.length)
                | _ => some (hour * 3600000 + minute * 60000 + second * 1000, afterSecond)
          | _ => some (hour * 3600000 + minute * 60000, afterMinute)
    | _ => none

/-- The end of a date-time string after the time of day: nothing (local
time, which is UTC on this device), `Z`, or an offset `+HH:mm` or `-HH:mm`;
the result is the offset from UTC in minutes. -/
def readOffset : List Char → Option Int
  | [] => some 0
  | ['Z'] => some 0
  | sign :: rest =>
    if sign = '+' ∨ sign = '-' then
      (fixedNumber 2 rest).bind fun (hour, afterHour) =>
        match afterHour with
        | ':' :: minuteOn =>
          (fixedNumber 2 minuteOn).bind fun (minute, afterMinute) =>
            if 23 < hour ∨ 59 < minute ∨ afterMinute ≠ [] then none
            else if sign = '+' then some ((hour * 60 + minute : Nat) : Int)
            else some (-((hour * 60 + minute : Nat) : Int))
        | _ => none
    else none

/-- The time value of a text of the date-time string format, in milliseconds
since 1 January 1970 UTC, with the year written in the text. -/
def readDateTime (text : String) : Option (Int × Int) :=
  (readDate text.toList).bind fun (year, month, day, afterDate) =>
    match afterDate with
    | [] => some (year, makeDay year (month - 1) day * 86400000)
    | 'T' :: timeOn =>
      (readTimeOfDay timeOn).bind fun (time, afterTime) =>
        (readOffset afterTime).map fun offset =>
          (year, makeDay year (month - 1) day * 86400000 + (time : Int) - offset * 60000)
    | _ => none

/-- The built-in `Date` of a device on UTC for a text of the date-time string
format of the language (`YYYY-MM-DDTHH:mm:ss.sssZ` and its shorter forms): the
pair `(getFullYear(), getMonth())`.  As in V8, a day of 29 to 31 that the
month does not have counts on into the next month (`2024-02-30` is 1 March
2024).  A time value beyond 8.64e15 milliseconds is an Invalid Date
(`TimeClip`).  For every other text an engine falls back on a reader of its
own, which is not modelled: the text is taken as an Invalid Date. -/
def isoDate (text : String) : Option (Int × Nat) :=
  (readDateTime text).bind fun (year, time) =>
    if time < -8640000000000000 ∨ 8640000000000000 < time then none
    else some (yearMonthOfDay year (time / 86400000))

/-- A device on UTC in May 2024. -/
def mayDevice : Device :=
  { dateOf := isoDate, now := (2024, 4) }

/-- The sum of the totals of the sales that have a given bucket key. -/
def bucketTotal (device : Device) (selectedDateRange : DateRange) (sales : List Sale)
    (key : String) : ℚ :=
  ((sales.filter fun sale => decide (dateKey device selectedDateRange sale = key)).map
    fun sale => sale.total).sum

/-- Ten shirts in stock; one shirt is sold after the date field is emptied. -/
def undatedSold : AppState :=
  runActions (initialState "2024-05-01" [shirt 10])
    [.addToSale (shirt 10), .setSaleDate "", .completeSale "2024-05-01"]

/-- Ten shirts in stock; one shirt is sold with the date field set to
`2024-02-30`. -/
def rolledOverSold : AppState :=
  runActions (initialState "2024-05-01" [shirt 10])
    [.addToSale (shirt 10), .setSaleDate "2024-02-30", .completeSale "2024-05-01"]

/-- A sale whose date field holds the text `__proto__`. -/
def protoSale : Sale :=
  { id := 1, date := "__proto__", items := [0], total := 299 / 10 }

/-- A sale whose date field holds the text `constructor`. -/
def constructorSale : Sale :=
  { id := 1, date := "constructor", items := [0], total := 299 / 10 }

/-- Three sales over two months of 2024. -/
def springSales : List Sale :=
  [{ id := 1, date := "2024-05-10", items := [0], total := 30 },
   { id := 2, date := "2024-04-02", items := [1], total := 12 },
   { id := 3, date := "2024-05-11", items := [2], total := 8 }]

/-! ### The dashboard: top selling products -/

/-- The object `productSales` after the two nested `forEach` of
`getTopSellingProducts` (lines 335-341). -/
def productSales (s : AppState) : JsObject Int :=
  s.sales.foldl
    (fun object sale =>
      (s.lines sale.items).foldl
        (fun object item => accumulate object item.name item.quantity) object) []

/-- The entries of an object whose values are all numbers, as pairs; `none`
when a value is a text. -/
def numberEntries {α : Type} : JsObject α → Option (List (String × α))
  | [] => some []
  | (key, .number value) :: rest => (numberEntries rest).map fun pairs => (key, value) :: pairs
  | (_, .text) :: _ => none

/-- The function `getTopSellingProducts()`:
`Object.entries(productSales).sort((a, b) => b[1] - a[1]).slice(0, 5)`, with
the stable sort of the language.  The result is `none` when a value is a
text: the comparator then returns `NaN` and the language does not define the
order. -/
def getTopSellingProducts (s : AppState) : Option (List (String × Int)) :=
  (numberEntries (ownEntries (productSales s))).map fun entries =>
    (entries.insertionSort fun a b => a.2 ≥ b.2).take 5

/-- The lines of all sales of the ledger, in ledger order. -/
def ledgerLines (s : AppState) : List Item :=
  s.sales.flatMap fun sale => s.lines sale.items

/-- The sum of the quantities of all lines of the ledger with a given name. -/
def productTotal (s : AppState) (name : String) : Int :=
  (((ledgerLines s).filter fun line => decide (line.name = name)).map
    fun line => line.quantity).sum

/-- The distinct names of a list in order of first appearance. -/
def firstAppearances (names : List String) : List String :=
  names.foldl (fun seen name => if name ∈ seen then seen else seen ++ [name]) []

/-- The order in which `Object.entries` lists the names: the names that are
array indices in ascending numeric order, then the other names in order of
first appearance. -/
def entriesOrder (names : List String) : List String :=
  ((firstAppearances names).filter fun name => (arrayIndex name).isSome).insertionSort
      (fun a b => (arrayIndex a).getD 0 ≤ (arrayIndex b).getD 0) ++
    (firstAppearances names).filter fun name => !(arrayIndex name).isSome

/-- Jeans named by a model number. -/
def jeans (id : Int) (name : String) : Item :=
  { id := id, name := name, category := "Jeans", price := 100, quantity := 5, photo := "" }

/-- One sale of two lines: one pair of the model 505, then one of the 501. -/
def jeansSold : AppState :=
  runActions (initialState "2024-05-01" [jeans 1 "505", jeans 2 "501"])
    [.addToSale (jeans 1 "505"), .addToSale (jeans 2 "501"), .completeSale "2024-05-01"]

/-- One sale of two lines: three items named `__proto__`, one shirt. -/
def protoSold : AppState :=
  runActions (initialState "2024-05-01" [jeans 1 "__proto__", shirt 10])
    [.addToSale (jeans 1 "__proto__"), .updateSaleItem 0 2, .addToSale (shirt 10),
     .completeSale "2024-05-01"]

/-- Two sales: a shirt and two hats, then a shirt. -/
def shirtsAndHats : AppState :=
  runActions (initialState "2024-05-01" [shirt 10, jeans 2 "Hat"])
    [.addToSale (shirt 10), .addToSale (jeans 2 "Hat"), .updateSaleItem 1 1,
     .completeSale "2024-05-01", .addToSale (shirt 9), .completeSale "2024-05-02"]

/-! ### The dashboard: stock levels -/

/-- The function `getInventoryStatus()`,
`[...inventory].sort((a, b) => b.quantity - a.quantity).slice(0, 5)`, with
the stable sort of the language.  The sort works in place on the copy made by
the spread, so the state is returned as it was, next to the result. -/
def getInventoryStatus (s : AppState) : List Item × AppState :=
  let copy := s.inventory
  let sorted := copy.insertionSort fun a b => a.quantity ≥ b.quantity
  (sorted.take 5, s)

/-- A catalog item of the stock chart. -/
def stocked (id : Int) (quantity : Int) : Item :=
  { id := id, name := "Item", category := "Stock", price := 10, quantity := quantity, photo := "" }

/-- A catalog of seven items, with ties at the quantities 9, 4 and 2. -/
def sevenItems : AppState :=
  initialState "2024-05-01"
    [stocked 1 4, stocked 2 9, stocked 3 2, stocked 4 9, stocked 5 4, stocked 6 7, stocked 7 2]

/-! ## Arithmetic of the reducers and of the id scheme -/

/-- A `reduce` that adds `f x` to the accumulator computes a sum. -/
theorem foldl_add_eq_sum {α β : Type} [AddCommMonoid β] (f : α → β) (l : List α) :
    ∀ a : β, l.foldl (fun acc x => acc + f x) a = a + (l.map f).sum := by
  induction l with
  | nil => intro a; simp
  | cons x rest ih => intro a; simp [ih, add_assoc]

/-- The result of `Math.max` bounds every element. -/
theorem le_mathMax : ∀ (l : List Int) (x : Int), x ∈ l → x ≤ mathMax l
  | [], _, h => by simp at h
  | [y], x, h => by simp at h; simp [mathMax, h]
  | y :: z :: rest, x, h => by
    rw [mathMax]
    rcases List.mem_cons.mp h with h1 | h1
    · rw [h1]; exact le_max_left _ _
    · exact le_trans (le_mathMax (z :: rest) x h1) (le_max_right _ _)

/-- The fresh id is above every id of the ledger. -/
theorem lt_freshSaleId (sales : List Sale) (sale : Sale) (h : sale ∈ sales) :
    sale.id < freshSaleId sales := by
  have hpos : 0 < sales.length := List.length_pos_of_mem h
  have hle : sale.id ≤ mathMax (sales.map fun s => s.id) :=
    le_mathMax _ _ (List.mem_map.mpr ⟨sale, h, rfl⟩)
  simp only [freshSaleId, hpos, if_true]
  omega

theorem one_le_freshSaleId (sales : List Sale) (h : ∀ sale ∈ sales, 1 ≤ sale.id) :
    1 ≤ freshSaleId sales := by
  cases sales with
  | nil => simp [freshSaleId]
  | cons a rest =>
    have h1 := h a (List.mem_cons_self _ _)
    have h2 := lt_freshSaleId (a :: rest) a (List.mem_cons_self _ _)
    omega

/-! ## Stock maps -/

theorem findSold_congr (items : List Item) (a b : Item) (h : a.id = b.id) :
    findSold items a = findSold items b := by
  simp [findSold, h]

/-- The lookup `find` sees the first line of the item only. -/
theorem findSold_eq_head_filter (items : List Item) (item : Item) :
    findSold items item = (items.filter fun l => decide (l.id = item.id)).head? := by
  unfold findSold
  induction items with
  | nil => rfl
  | cons l rest ih =>
    by_cases h : l.id = item.id
    · rw [List.find?_cons, List.filter_cons]
      simp [h]
    · rw [List.find?_cons, List.filter_cons]
      simp only [h, decide_False, Bool.false_eq_true, if_false]
      exact ih

/-- Subtracting after adding the same lines gives the inventory back. -/
theorem deductStock_restoreStock (inventory items : List Item) :
    deductStock (restoreStock inventory items) items = inventory := by
  unfold deductStock restoreStock
  rw [List.map_map]
  conv_rhs => rw [← List.map_id inventory]
  apply List.map_congr_left
  intro item _
  simp only [Function.comp_apply, id_eq]
  cases h : findSold items item with
  | none => simp [h]
  | some sold =>
    have h2 : findSold items { item with quantity := item.quantity + sold.quantity } = some sold := by
      rw [← h]; exact findSold_congr _ _ _ rfl
    simp [h2]

theorem deductStock_getElem (inventory items : List Item) (i : Nat) (item : Item)
    (h : inventory[i]? = some item) :
    (deductStock inventory items)[i]? = some
      (match findSold items item with
       | some soldItem => { item with quantity := item.quantity - soldItem.quantity }
       | none => item) := by
  simp [deductStock, List.getElem?_map, h]

/-! ## The ledger invariant -/

theorem ledgerInv_of_eq {s t : AppState} (h : LedgerInv s)
    (hs : t.sales = s.sales) (he : t.editingSale = s.editingSale) : LedgerInv t := by
  unfold LedgerInv at *
  rw [hs, he]; exact h

theorem handleAddToSale_sales (s : AppState) (item : Item) :
    (handleAddToSale s item).sales = s.sales ∧
    (handleAddToSale s item).editingSale = s.editingSale := by
  unfold handleAddToSale
  split <;> simp

theorem handleUpdateSaleItem_sales (s : AppState) (index : Nat) (change : Int) :
    (handleUpdateSaleItem s index change).sales = s.sales ∧
    (handleUpdateSaleItem s index change).editingSale = s.editingSale := by
  unfold handleUpdateSaleItem
  split
  · simp
  · simp only
    split
    · simp
    · split <;> simp

theorem commitEdit_map_ids (sales : List Sale) (draft : NewSale) (editingId : Int) :
    (sales.map fun sale => if sale.id = editingId then saleRecord draft editingId else sale).map
      (fun sale => sale.id) = sales.map fun sale => sale.id := by
  rw [List.map_map]
  apply List.map_congr_left
  intro sale _
  by_cases h : sale.id = editingId <;> simp [h, saleRecord]

theorem ledgerInv_handleCompleteSale (today : String) (s : AppState) (h : LedgerInv s) :
    LedgerInv (handleCompleteSale today s) := by
  unfold handleCompleteSale
  split
  · exact h
  · obtain ⟨hnd, hpos, hed⟩ := h
    cases he : s.editingSale with
    | none =>
      refine ⟨?_, ?_, ?_⟩
      · simp only [commitSaleId, he, List.map_append, List.map_cons, List.map_nil, saleRecord]
        rw [List.nodup_append]
        refine ⟨hnd, List.nodup_singleton _, ?_⟩
        intro x hx hx2
        simp only [List.mem_singleton] at hx2
        obtain ⟨sale, hsale, rfl⟩ := List.mem_map.mp hx
        have := lt_freshSaleId s.sales sale hsale
        omega
      · intro sale hsale
        simp only [commitSaleId, he, List.mem_append, List.mem_singleton] at hsale
        rcases hsale with hsale | hsale
        · exact hpos sale hsale
        · rw [hsale]; exact one_le_freshSaleId s.sales hpos
      · intro e h2; simp at h2
    | some editing =>
      have hid : 1 ≤ editing.id := hed editing he
      have hne : editing.id ≠ 0 := by omega
      refine ⟨?_, ?_, ?_⟩
      · simp only [commitSaleId, he, hne, ne_eq, not_false_eq_true, if_true]
        rw [commitEdit_map_ids]; exact hnd
      · intro sale hsale
        simp only [commitSaleId, he, hne, ne_eq, not_false_eq_true, if_true, List.mem_map] at hsale
        obtain ⟨old, hold, rfl⟩ := hsale
        by_cases hc : old.id = editing.id
        · simp [hc, saleRecord, hid]
        · simp [hc, hpos old hold]
      · intro e h2; simp at h2

theorem ledgerInv_handleDeleteSale (s : AppState) (id : Int) (h : LedgerInv s) :
    LedgerInv (handleDeleteSale s id) := by
  unfold handleDeleteSale
  split
  · exact h
  · obtain ⟨hnd, hpos, hed⟩ := h
    refine ⟨?_, ?_, hed⟩
    · exact hnd.sublist (List.Sublist.map _ (List.filter_sublist _))
    · intro sale hsale
      exact hpos sale (List.mem_of_mem_filter hsale)

/-- Every enabled action preserves the ledger invariant. -/
theorem ledgerInv_step (s : AppState) (a : Action) (h : LedgerInv s) (he : actionEnabled s a) :
    LedgerInv (applyAction s a) := by
  cases a with
  | catalogEdit inventory => exact ledgerInv_of_eq h rfl rfl
  | deleteItem id => exact ledgerInv_of_eq h rfl rfl
  | addToSale item =>
    exact ledgerInv_of_eq h (handleAddToSale_sales s item).1 (handleAddToSale_sales s item).2
  | updateSaleItem index change =>
    exact ledgerInv_of_eq h (handleUpdateSaleItem_sales s index change).1
      (handleUpdateSaleItem_sales s index change).2
  | removeSaleItem index => exact ledgerInv_of_eq h rfl rfl
  | setSaleDate text => exact ledgerInv_of_eq h rfl rfl
  | completeSale today => exact ledgerInv_handleCompleteSale today s h
  | editSale sale =>
    obtain ⟨hnd, hpos, _⟩ := h
    refine ⟨hnd, hpos, ?_⟩
    intro e h2
    simp only [applyAction, handleEditSale, Option.some.injEq] at h2
    rw [← h2]; exact hpos sale he
  | cancelEdit today =>
    obtain ⟨hnd, hpos, hed⟩ := h
    simp only [applyAction, cancelEdit]
    split
    · exact ⟨hnd, hpos, hed⟩
    · exact ⟨hnd, hpos, by intro e h2; simp at h2⟩
  | deleteSale id => exact ledgerInv_handleDeleteSale s id h

/-- Every reachable state satisfies the ledger invariant. -/
theorem reachable_ledgerInv (s : AppState) (h : Reachable s) : LedgerInv s := by
  induction h with
  | init today inventory => simp [LedgerInv, initialState]
  | step a _ he ih => exact ledgerInv_step _ a ih he

/-! ## Reachable states of the scenarios -/

theorem reachable_runActions (actions : List Action) :
    ∀ s : AppState, Reachable s → actionsEnabled s actions → Reachable (runActions s actions) := by
  induction actions with
  | nil => intro s hs _; exact hs
  | cons a rest ih =>
    intro s hs he
    exact ih (applyAction s a) (Reachable.step a hs he.1) he.2

theorem soldOne_reachable : Reachable soldOne := by
  apply reachable_runActions _ _ (Reachable.init _ _)
  simp [actionsEnabled, actionEnabled, initialState]

theorem soldOne_sales : soldOne.sales = [saleOfOne] := by
  simp [soldOne, saleOfOne, runActions, applyAction, initialState, handleAddToSale,
    handleCompleteSale, shirt, emptySale, saleRecord, commitSaleId, freshSaleId]

theorem soldFour_sales : soldFour.sales = [saleOfFour] := by
  simp [soldFour, draftOfFour, saleOfFour, runActions, applyAction, initialState, handleAddToSale,
    handleUpdateSaleItem, handleCompleteSale, shirt, emptySale, saleRecord, commitSaleId,
    freshSaleId, itemsTotal]
  norm_num

/-- The scenario draft: after `handleAddToSale` and a change of +3 the line
has quantity 4 and the draft total is 4 times the price. -/
theorem draftOfFour_line_and_total :
    (draftOfFour.lines draftOfFour.newSale.items).map (fun line => line.quantity) = [4] ∧
    draftOfFour.newSale.total = 4 * (shirt 10).price := by
  refine ⟨by decide, ?_⟩
  simp [draftOfFour, runActions, applyAction, initialState, handleAddToSale,
    handleUpdateSaleItem, shirt, emptySale, itemsTotal]
  norm_num

/-! ## Deleting a sale -/

theorem filter_ne_of_not_mem (sales : List Sale) (id : Int)
    (h : id ∉ sales.map fun sale => sale.id) :
    sales.filter (fun sale => decide (sale.id ≠ id)) = sales := by
  rw [List.filter_eq_self]
  intro sale hs
  have : sale.id ≠ id := fun hc => h (List.mem_map.mpr ⟨sale, hs, hc⟩)
  simpa using this

/-- With distinct ids, a sum over the ledger is the deleted sale's term plus
the sum over the filtered ledger. -/
theorem sum_filter_ne {β : Type} [AddCommMonoid β] (f : Sale → β) :
    ∀ (sales : List Sale) (sale : Sale), (sales.map fun x => x.id).Nodup → sale ∈ sales →
      (sales.map f).sum
        = f sale + ((sales.filter fun x => decide (x.id ≠ sale.id)).map f).sum := by
  intro sales
  induction sales with
  | nil => intro sale _ h; simp at h
  | cons a rest ih =>
    intro sale hnd hmem
    rw [List.map_cons, List.nodup_cons] at hnd
    rcases List.mem_cons.mp hmem with h | h
    · subst h
      rw [List.filter_cons, if_neg (by simp), filter_ne_of_not_mem rest sale.id hnd.1]
      simp
    · have hne : a.id ≠ sale.id := by
        intro hc
        exact hnd.1 (List.mem_map.mpr ⟨sale, h, hc.symm⟩)
      rw [List.filter_cons]
      simp only [hne, ne_eq, not_false_eq_true, decide_True, if_true, List.map_cons, List.sum_cons]
      rw [ih sale hnd.2 h]
      exact add_left_comm _ _ _

theorem handleDeleteSale_of_mem (s : AppState) (sale : Sale) (h : sale ∈ s.sales) :
    (handleDeleteSale s sale.id).sales = s.sales.filter (fun x => decide (x.id ≠ sale.id)) ∧
    (handleDeleteSale s sale.id).heap = s.heap := by
  unfold handleDeleteSale
  split
  · rename_i hnone
    rw [List.find?_eq_none] at hnone
    have := hnone sale h
    simp at this
  · simp

/-! ## The claims -/

/-- C1 (defect in the code): stock goes negative.  With one shirt in stock a
line is added (quantity 1); the "+" button raises it to 2, because the guard
of `handleUpdateSaleItem` compares the change, not the new quantity, with the
stock; `handleCompleteSale` then subtracts without a check and the catalog
quantity becomes -1. -/
theorem stock_goes_negative :
    (initialState "2024-05-01" [shirt 1]).inventory.map (fun item => item.quantity) = [1] ∧
    Reachable (handleCompleteSale "2024-05-01" oversoldDraft) ∧
    (oversoldDraft.lines oversoldDraft.newSale.items).map (fun line => line.quantity) = [2] ∧
    (handleCompleteSale "2024-05-01" oversoldDraft).inventory.map (fun item => item.quantity)
      = [-1] := by
  refine ⟨by decide, ?_, by decide, by decide⟩
  have h := reachable_runActions
    [.addToSale (shirt 1), .updateSaleItem 0 1, .completeSale "2024-05-01"]
    (initialState "2024-05-01" [shirt 1]) (Reachable.init _ _)
    (by simp [actionsEnabled, actionEnabled, initialState])
  exact h

/-- C2 (defect in the code): a ledger total goes stale.  A sale of one shirt
is opened for editing, its line is raised to 2 and the edit is cancelled.
The edit draft shares the line object with the ledger entry, so the entry now
has quantity 2 while its `total` is still the price of one shirt. -/
theorem ledger_total_goes_stale :
    Reachable (runActions soldOne editRaiseCancel) ∧
    (runActions soldOne editRaiseCancel).sales = [saleOfOne] ∧
    ((runActions soldOne editRaiseCancel).lines saleOfOne.items).map
      (fun line => (line.price, line.quantity)) = [(299 / 10, 2)] ∧
    saleOfOne.total = 299 / 10 ∧
    itemsTotal ((runActions soldOne editRaiseCancel).lines saleOfOne.items) = 299 / 5 ∧
    saleOfOne.total ≠ itemsTotal ((runActions soldOne editRaiseCancel).lines saleOfOne.items) := by
  have hsales : (runActions soldOne editRaiseCancel).sales = [saleOfOne] := by
    simp [soldOne, saleOfOne, editRaiseCancel, runActions, applyAction, initialState,
      handleAddToSale, handleCompleteSale, handleEditSale, handleUpdateSaleItem, cancelEdit, shirt,
      emptySale, saleRecord, commitSaleId, freshSaleId, AppState.lines, restoreStock,
      deductStock, findSold]
  have htotal :
      itemsTotal ((runActions soldOne editRaiseCancel).lines saleOfOne.items) = 299 / 5 := by
    simp [soldOne, saleOfOne, editRaiseCancel, runActions, applyAction, initialState,
      handleAddToSale, handleCompleteSale, handleEditSale, handleUpdateSaleItem, cancelEdit, shirt,
      emptySale, saleRecord, commitSaleId, freshSaleId, AppState.lines, restoreStock,
      deductStock, findSold, itemsTotal]
    norm_num
  refine ⟨?_, hsales, ?_, rfl, htotal, ?_⟩
  · apply reachable_runActions _ _ soldOne_reachable
    simp [actionsEnabled, actionEnabled, editRaiseCancel, soldOne_sales]
  · simp [soldOne, saleOfOne, editRaiseCancel, runActions, applyAction, initialState,
      handleAddToSale, handleCompleteSale, handleEditSale, handleUpdateSaleItem, cancelEdit, shirt,
      emptySale, saleRecord, commitSaleId, freshSaleId, AppState.lines, restoreStock,
      deductStock, findSold]
  · rw [htotal]; norm_num [saleOfOne]

/-- C3: edit round trip.  After a commit of a non-empty draft, opening any
sale of the resulting ledger for editing (in particular the sale just
recorded, which a fresh commit puts in the ledger) and committing the edit
draft as loaded gives back the inventory of before the edit, item by item. -/
theorem edit_round_trip (today1 today2 : String) (s : AppState) (hne : s.newSale.items ≠ []) :
    (s.editingSale = none →
      saleRecord s.newSale (freshSaleId s.sales) ∈ (handleCompleteSale today1 s).sales) ∧
    ∀ sale ∈ (handleCompleteSale today1 s).sales,
      (handleCompleteSale today2 (handleEditSale (handleCompleteSale today1 s) sale)).inventory
        = (handleCompleteSale today1 s).inventory := by
  constructor
  · intro hf
    simp [handleCompleteSale, hne, hf, commitSaleId]
  · intro sale _
    generalize handleCompleteSale today1 s = s1
    by_cases hi : sale.items = []
    · simp [handleCompleteSale, handleEditSale, hi, restoreStock, AppState.lines, findSold]
    · simp [handleCompleteSale, handleEditSale, hi, AppState.lines, deductStock_restoreStock]

/-- Witness of C3: the draft of four shirts is committed (stock 6), the sale
is opened for editing (stock 10) and committed again as loaded. -/
theorem edit_round_trip_witness :
    draftOfFour.newSale.items ≠ [] ∧
    saleOfFour ∈ soldFour.sales ∧
    soldFour.inventory.map (fun item => item.quantity) = [6] ∧
    (handleEditSale soldFour saleOfFour).inventory.map (fun item => item.quantity) = [10] ∧
    (handleCompleteSale "2024-05-03" (handleEditSale soldFour saleOfFour)).inventory
      = soldFour.inventory :=
  ⟨by decide, by simp [soldFour_sales], by decide, by decide,
    (edit_round_trip "2024-05-01" "2024-05-03" draftOfFour (by decide)).2 saleOfFour
      (by show saleOfFour ∈ soldFour.sales; simp [soldFour_sales])⟩

/-- C4 (defect in the code): cancelling an edit adds the stock a second time.
The sale of four shirts left 6 in stock; `handleEditSale` puts the 4 back
(10); the cancel button maps the inventory with `+` again (14) instead of
taking the 4 out, while the ledger still holds the sale. -/
theorem cancel_restores_twice :
    soldFour.sales = [saleOfFour] ∧
    soldFour.inventory.map (fun item => item.quantity) = [6] ∧
    (handleEditSale soldFour saleOfFour).inventory.map (fun item => item.quantity) = [10] ∧
    (cancelEdit "2024-05-02" (handleEditSale soldFour saleOfFour)).inventory.map
      (fun item => item.quantity) = [14] ∧
    (cancelEdit "2024-05-02" (handleEditSale soldFour saleOfFour)).sales = soldFour.sales :=
  ⟨soldFour_sales, by decide, by decide, by decide, rfl⟩

/-- C5 (defect in the code): deleting a sale gives back the first line only.
The sale has two lines of one shirt each; `handleDeleteSale` looks the sold
item up with `find`, so the stock goes from 9 to 10, not to 9 + 2. -/
theorem delete_counts_first_line_only :
    twoLineSold.inventory.map (fun item => (item.id, item.quantity)) = [(1, 9)] ∧
    twoLineSold.sales.map
      (fun sale => (sale.id, (twoLineSold.lines sale.items).map fun line => (line.id, line.quantity)))
      = [(1, [(1, 1), (1, 1)])] ∧
    (handleDeleteSale twoLineSold 1).inventory.map (fun item => (item.id, item.quantity))
      = [(1, 10)] ∧
    (handleDeleteSale twoLineSold 1).sales = [] := by
  decide

/-- With distinct ids, the filter of `handleDeleteSale` takes the sale out
and keeps the sales before and after it. -/
theorem filter_ne_split (sales : List Sale) (sale : Sale)
    (hnd : (sales.map fun x => x.id).Nodup) (hs : sale ∈ sales) :
    ∃ before after : List Sale,
      sales = before ++ sale :: after ∧
      sales.filter (fun x => decide (x.id ≠ sale.id)) = before ++ after := by
  obtain ⟨before, after, hsplit⟩ := List.append_of_mem hs
  refine ⟨before, after, hsplit, ?_⟩
  subst hsplit
  rw [List.map_append, List.map_cons] at hnd
  have hafter : sale.id ∉ after.map fun x => x.id :=
    (List.nodup_cons.mp (List.Nodup.of_append_right hnd)).1
  have hbefore : sale.id ∉ before.map fun x => x.id := by
    intro hmem
    exact (List.nodup_append.mp hnd).2.2 hmem (List.mem_cons_self _ _)
  rw [List.filter_append, List.filter_cons, if_neg (by simp),
    filter_ne_of_not_mem before sale.id hbefore, filter_ne_of_not_mem after sale.id hafter]

theorem threeSold_reachable : Reachable threeSold := by
  apply reachable_runActions _ _ (Reachable.init _ _)
  simp [actionsEnabled, actionEnabled, applyAction, initialState, handleAddToSale,
    handleCompleteSale, shirt, emptySale, AppState.lines, deductStock, findSold]

theorem threeSold_sales :
    threeSold.sales
      = [saleOfOne, { id := 2, date := "2024-05-01", items := [1], total := 299 / 10 },
         { id := 3, date := "2024-05-01", items := [2], total := 299 / 10 }] := by
  simp [threeSold, saleOfOne, runActions, applyAction, initialState, handleAddToSale,
    handleCompleteSale, shirt, emptySale, saleRecord, commitSaleId, freshSaleId, mathMax,
    AppState.lines, deductStock, findSold, itemsTotal]

theorem threeSold_after_delete :
    (handleDeleteSale threeSold 1).sales
      = [{ id := 2, date := "2024-05-01", items := [1], total := 299 / 10 },
         { id := 3, date := "2024-05-01", items := [2], total := 299 / 10 }] := by
  have h := (handleDeleteSale_of_mem threeSold saleOfOne (by simp [threeSold_sales])).1
  rw [threeSold_sales] at h
  rw [show (1 : Int) = saleOfOne.id from rfl, h]
  simp [saleOfOne]

/-- The price 29.9 as a double: 8416101803648614 units of 2 ^ -48. -/
theorem double_of_price :
    Double.ofRat (299 / 10) = { mantissa := 8416101803648614, exponent := -48 } := by
  decide!

/-- The revenue of the three sales: 29.9 + 29.9 + 29.9 in doubles. -/
theorem threeSold_revenue :
    (periodSummary threeSold threeSold.sales).2.1 = 1578019088184115 / 17592186044416 := by
  show Double.value (List.foldl _ _ threeSold.sales) = _
  rw [threeSold_sales]
  simp only [List.foldl, saleOfOne, double_of_price]
  rw [show Double.add (Double.add (Double.add { mantissa := 0, exponent := 0 }
        { mantissa := 8416101803648614, exponent := -48 })
        { mantissa := 8416101803648614, exponent := -48 })
        { mantissa := 8416101803648614, exponent := -48 }
      = { mantissa := 6312076352736460, exponent := -46 } by decide!]
  norm_num [Double.value]

/-- The revenue after the first of the three sales is deleted: 29.9 + 29.9 in
doubles. -/
theorem threeSold_revenue_after_delete :
    (periodSummary (handleDeleteSale threeSold 1) (handleDeleteSale threeSold 1).sales).2.1
      = 4208050901824307 / 70368744177664 := by
  show Double.value (List.foldl _ _ (handleDeleteSale threeSold 1).sales) = _
  rw [threeSold_after_delete]
  simp only [List.foldl, double_of_price]
  rw [show Double.add (Double.add { mantissa := 0, exponent := 0 }
        { mantissa := 8416101803648614, exponent := -48 })
        { mantissa := 8416101803648614, exponent := -48 }
      = { mantissa := 8416101803648614, exponent := -47 } by decide!]
  norm_num [Double.value]

/-- C6 (as stated, refuted): the revenue of the summary is not smaller by
exactly the total of the deleted sale.  Three sales of one shirt at 29.9 are
in the ledger; each total is the double nearest to 29.9.  The reducer of the
summary gives 89.69999999999999 (29.9 + 29.9 + 29.9 in doubles); after the
first sale is deleted it gives 59.8 (29.9 + 29.9), which is neither the old
revenue less 29.9 taken exactly nor that difference rounded to a double
(59.79999999999999). -/
theorem revenue_not_conserved_under_delete :
    Reachable threeSold ∧
    threeSold.sales.map (fun sale => (sale.id, sale.total))
      = [(1, 299 / 10), (2, 299 / 10), (3, 299 / 10)] ∧
    (Double.ofRat (299 / 10)).value = 4208050901824307 / 140737488355328 ∧
    (periodSummary threeSold threeSold.sales).2.1 = 1578019088184115 / 17592186044416 ∧
    (periodSummary (handleDeleteSale threeSold 1) (handleDeleteSale threeSold 1).sales).2.1
      = 4208050901824307 / 70368744177664 ∧
    (periodSummary (handleDeleteSale threeSold 1) (handleDeleteSale threeSold 1).sales).2.1
      ≠ (periodSummary threeSold threeSold.sales).2.1 - 299 / 10 ∧
    (periodSummary (handleDeleteSale threeSold 1) (handleDeleteSale threeSold 1).sales).2.1
      ≠ (periodSummary threeSold threeSold.sales).2.1 - (Double.ofRat (299 / 10)).value ∧
    (periodSummary (handleDeleteSale threeSold 1) (handleDeleteSale threeSold 1).sales).2.1
      ≠ (Double.add (Double.ofRat (periodSummary threeSold threeSold.sales).2.1)
          (Double.ofRat (-(299 / 10)))).value := by
  have hminus : Double.add (Double.ofRat (1578019088184115 / 17592186044416))
      (Double.ofRat (-(299 / 10))) = { mantissa := 8416101803648613, exponent := -47 } := by
    decide!
  refine ⟨threeSold_reachable, by simp [threeSold_sales, saleOfOne], ?_, threeSold_revenue,
    threeSold_revenue_after_delete, ?_, ?_, ?_⟩
  · rw [double_of_price]; norm_num [Double.value]
  · rw [threeSold_revenue_after_delete, threeSold_revenue]; norm_num
  · rw [threeSold_revenue_after_delete, threeSold_revenue, double_of_price]
    norm_num [Double.value]
  · rw [threeSold_revenue_after_delete, threeSold_revenue, hminus]; norm_num [Double.value]

/-- C6 (amended): the summary after a delete.  In every state reached from an
empty ledger, deleting a sale of the ledger takes that one entry out and
keeps the sales before and after it; the summary over the ledger counts one
sale less; its units, the sum over the sales of the sum of the line
quantities, are smaller by the sum of the deleted sale's line quantities; its
revenue is the sum of the remaining totals, read as doubles and added from 0
in ledger order in double precision; and the remaining totals, added exactly,
are the old totals less the deleted sale's total. -/
theorem summary_under_delete (s : AppState) (hr : Reachable s) (sale : Sale)
    (hs : sale ∈ s.sales) :
    ∃ before after : List Sale,
      s.sales = before ++ sale :: after ∧
      (handleDeleteSale s sale.id).sales = before ++ after ∧
      (periodSummary s s.sales).1 = s.sales.length ∧
      (periodSummary (handleDeleteSale s sale.id) (handleDeleteSale s sale.id).sales).1 + 1
        = (periodSummary s s.sales).1 ∧
      (periodSummary s s.sales).2.2
        = (s.sales.map fun x => ((s.lines x.items).map fun line => line.quantity).sum).sum ∧
      (periodSummary (handleDeleteSale s sale.id) (handleDeleteSale s sale.id).sales).2.2
        = (periodSummary s s.sales).2.2
          - ((s.lines sale.items).map fun line => line.quantity).sum ∧
      (periodSummary s s.sales).2.1
        = ((before ++ sale :: after).foldl
            (fun total x => Double.add total (Double.ofRat x.total))
            { mantissa := 0, exponent := 0 }).value ∧
      (periodSummary (handleDeleteSale s sale.id) (handleDeleteSale s sale.id).sales).2.1
        = ((before ++ after).foldl (fun total x => Double.add total (Double.ofRat x.total))
            { mantissa := 0, exponent := 0 }).value ∧
      ((before ++ after).map fun x => x.total).sum
        = (s.sales.map fun x => x.total).sum - sale.total := by
  have hnd := (reachable_ledgerInv s hr).1
  obtain ⟨hsales, hheap⟩ := handleDeleteSale_of_mem s sale hs
  obtain ⟨before, after, hsplit, hfilter⟩ := filter_ne_split s.sales sale hnd hs
  have hunits : ∀ (t : AppState), t.heap = s.heap → ∀ x : Sale,
      saleUnits t x = ((s.lines x.items).map fun line => line.quantity).sum := by
    intro t ht x
    simp [saleUnits, AppState.lines, ht, foldl_add_eq_sum]
  have hdel : (handleDeleteSale s sale.id).sales = before ++ after := by rw [hsales, hfilter]
  refine ⟨before, after, hsplit, hdel, rfl, ?_, ?_, ?_, ?_, ?_, ?_⟩
  · simp only [periodSummary, hdel, hsplit, List.length_append, List.length_cons]
    omega
  · simp only [periodSummary, foldl_add_eq_sum, zero_add, hunits s rfl]
  · simp only [periodSummary, foldl_add_eq_sum, zero_add, hunits s rfl,
      hunits (handleDeleteSale s sale.id) hheap, hdel, hsplit, List.map_append,
      List.map_cons, List.sum_append, List.sum_cons]
    ring
  · simp only [periodSummary, hsplit]
  · simp only [periodSummary, hdel]
  · simp only [hsplit, List.map_append, List.map_cons, List.sum_append, List.sum_cons]
    ring

/-- Witness of C6 (amended): the ledger of three sales of one shirt at 29.9;
the first sale is deleted.  The count goes from 3 to 2, the units from 3 to 2
(the deleted sale has one line of quantity 1), the revenue from
89.69999999999999 to 59.8, the double sum of the two remaining totals, and the
exact sum of the totals from 299/10 * 3 to 299/5. -/
theorem summary_under_delete_witness :
    Reachable threeSold ∧ saleOfOne ∈ threeSold.sales ∧
    (∃ before after : List Sale,
      threeSold.sales = before ++ saleOfOne :: after ∧
      (handleDeleteSale threeSold saleOfOne.id).sales = before ++ after ∧
      (periodSummary (handleDeleteSale threeSold saleOfOne.id)
          (handleDeleteSale threeSold saleOfOne.id).sales).2.1
        = ((before ++ after).foldl (fun total x => Double.add total (Double.ofRat x.total))
            { mantissa := 0, exponent := 0 }).value) ∧
    (periodSummary threeSold threeSold.sales).1 = 3 ∧
    (periodSummary (handleDeleteSale threeSold saleOfOne.id)
        (handleDeleteSale threeSold saleOfOne.id).sales).1 = 2 ∧
    (periodSummary threeSold threeSold.sales).2.2 = 3 ∧
    ((threeSold.lines saleOfOne.items).map fun line => line.quantity).sum = 1 ∧
    (periodSummary (handleDeleteSale threeSold saleOfOne.id)
        (handleDeleteSale threeSold saleOfOne.id).sales).2.2 = 2 ∧
    (periodSummary threeSold threeSold.sales).2.1 = 1578019088184115 / 17592186044416 ∧
    (periodSummary (handleDeleteSale threeSold saleOfOne.id)
        (handleDeleteSale threeSold saleOfOne.id).sales).2.1
      = 4208050901824307 / 70368744177664 ∧
    (threeSold.sales.map fun x => x.total).sum = 897 / 10 ∧
    ((handleDeleteSale threeSold saleOfOne.id).sales.map fun x => x.total).sum = 299 / 5 := by
  have hmem : saleOfOne ∈ threeSold.sales := by simp [threeSold_sales]
  obtain ⟨before, after, h1, h2, h3, h4, h5, h6, _, h8, h9⟩ :=
    summary_under_delete threeSold threeSold_reachable saleOfOne hmem
  have hlen : (periodSummary threeSold threeSold.sales).1 = 3 := by
    rw [h3, threeSold_sales]; rfl
  have hunits : (periodSummary threeSold threeSold.sales).2.2 = 3 := by decide
  have hline : ((threeSold.lines saleOfOne.items).map fun line => line.quantity).sum = 1 := by
    decide
  have hsum : (threeSold.sales.map fun x => x.total).sum = 897 / 10 := by
    rw [threeSold_sales]; norm_num [saleOfOne]
  refine ⟨threeSold_reachable, hmem, ⟨before, after, h1, h2, h8⟩, hlen, by omega, hunits, hline,
    by rw [h6, hunits, hline]; rfl, threeSold_revenue, threeSold_revenue_after_delete, hsum, ?_⟩
  rw [h2, h9, hsum]
  norm_num [saleOfOne]

/-- C7 (defect in the code): a commit subtracts the first line only.  The
draft has two lines of one shirt each; `handleCompleteSale` looks the sold
item up with `find`, so the stock goes from 10 to 9, not to 10 - 2. -/
theorem commit_counts_first_line_only :
    twoLineDraft.inventory.map (fun item => (item.id, item.quantity)) = [(1, 10)] ∧
    (twoLineDraft.lines twoLineDraft.newSale.items).map (fun line => (line.id, line.quantity))
      = [(1, 1), (1, 1)] ∧
    (handleCompleteSale "2024-05-01" twoLineDraft).inventory.map
      (fun item => (item.id, item.quantity)) = [(1, 9)] := by
  decide

/-- C8 (as stated, refuted): a commit whose decrement makes a quantity
negative does not fail.  With one shirt in stock and a draft line of two
shirts the premise of the claim holds, yet the commit changes the catalog
(1 becomes -1), the ledger (a sale is recorded) and the draft (reset). -/
theorem commit_is_not_all_or_nothing :
    (∃ item ∈ oversoldDraft.inventory, ∃ line ∈ oversoldDraft.lines oversoldDraft.newSale.items,
      line.id = item.id ∧ item.quantity - line.quantity < 0) ∧
    oversoldDraft.inventory.map (fun item => item.quantity) = [1] ∧
    (handleCompleteSale "2024-05-01" oversoldDraft).inventory.map (fun item => item.quantity)
      = [-1] ∧
    oversoldDraft.sales.length = 0 ∧
    (handleCompleteSale "2024-05-01" oversoldDraft).sales.length = 1 ∧
    oversoldDraft.newSale.items = [0] ∧
    (handleCompleteSale "2024-05-01" oversoldDraft).newSale.items = [] := by
  decide

/-- C8 (amended): a commit does not look at the stock.  Every commit of a
non-empty draft goes through: the draft is reset, the edit mode is left, the
sale is appended (or put in place of the edited entries), and a catalog item
referenced by exactly one draft line loses that line's quantity whatever its
stock, while an item referenced by no line is unchanged. -/
theorem commit_ignores_stock (today : String) (s : AppState) (hne : s.newSale.items ≠ []) :
    (handleCompleteSale today s).newSale = emptySale today ∧
    (handleCompleteSale today s).editingSale = none ∧
    (s.editingSale = none →
      (handleCompleteSale today s).sales
        = s.sales ++ [saleRecord s.newSale (freshSaleId s.sales)]) ∧
    (∀ editing, s.editingSale = some editing →
      (handleCompleteSale today s).sales
        = s.sales.map fun sale =>
            if sale.id = editing.id then saleRecord s.newSale (commitSaleId s) else sale) ∧
    (handleCompleteSale today s).inventory.length = s.inventory.length ∧
    ∀ (i : Nat) (item : Item), s.inventory[i]? = some item →
      (∀ line : Item,
        (s.lines s.newSale.items).filter (fun l => decide (l.id = item.id)) = [line] →
        (handleCompleteSale today s).inventory[i]?
          = some { item with quantity := item.quantity - line.quantity }) ∧
      ((s.lines s.newSale.items).filter (fun l => decide (l.id = item.id)) = [] →
        (handleCompleteSale today s).inventory[i]? = some item) := by
  have hinv : (handleCompleteSale today s).inventory
      = deductStock s.inventory (s.lines s.newSale.items) := by
    simp [handleCompleteSale, hne]
  refine ⟨?_, ?_, ?_, ?_, ?_, ?_⟩
  · simp [handleCompleteSale, hne]
  · simp [handleCompleteSale, hne]
  · intro hf; simp [handleCompleteSale, hne, hf, commitSaleId]
  · intro editing he; simp [handleCompleteSale, hne, he]
  · rw [hinv]; simp [deductStock]
  · intro i item hi
    rw [hinv, deductStock_getElem _ _ i item hi, findSold_eq_head_filter]
    constructor
    · intro line hline; rw [hline]; rfl
    · intro hnone; rw [hnone]; rfl

/-- Witness of C8 (amended): one shirt in stock, a draft line of two. -/
theorem commit_ignores_stock_witness :
    oversoldDraft.newSale.items ≠ [] ∧
    oversoldDraft.inventory[0]? = some (shirt 1) ∧
    (oversoldDraft.lines oversoldDraft.newSale.items).filter (fun l => decide (l.id = (shirt 1).id))
      = [shirt 2] ∧
    (handleCompleteSale "2024-05-01" oversoldDraft).inventory[0]? = some (shirt (-1)) ∧
    (handleCompleteSale "2024-05-01" oversoldDraft).sales.length = 1 :=
  ⟨by decide, rfl, rfl,
    ((commit_ignores_stock "2024-05-01" oversoldDraft (by decide)).2.2.2.2.2 0 (shirt 1)
      rfl).1 (shirt 2) rfl,
    by decide⟩

/-- C9: a commit (fresh or of an edit) with a draft without lines is
rejected: the whole state, that is the catalog, the ledger with the entry
being edited, the draft and the edit mode, is left as it was. -/
theorem commit_of_empty_draft_rejected (today : String) (s : AppState)
    (h : s.newSale.items = []) :
    handleCompleteSale today s = s := by
  simp [handleCompleteSale, h]

/-- Witness of C9: the scenario.  The sale of four shirts is opened for
editing (stock back at 10), its line is removed, and the commit of the empty
edit draft changes nothing: the stock stays at 10 and the ledger keeps the
sale. -/
theorem commit_of_empty_draft_rejected_witness :
    editEmptied.newSale.items = [] ∧
    editEmptied.editingSale = some saleOfFour ∧
    handleCompleteSale "2024-05-02" editEmptied = editEmptied ∧
    (handleCompleteSale "2024-05-02" editEmptied).inventory.map (fun item => item.quantity)
      = [10] ∧
    (handleCompleteSale "2024-05-02" editEmptied).sales = [saleOfFour] :=
  ⟨by decide, rfl, commit_of_empty_draft_rejected "2024-05-02" editEmptied (by decide),
    by decide, by
      rw [commit_of_empty_draft_rejected "2024-05-02" editEmptied rfl]
      exact soldFour_sales⟩

/-- In every reachable state the sale being edited has a non-zero (truthy) id. -/
theorem reachable_editing_id_ne_zero (s : AppState) (h : Reachable s) (editing : Sale)
    (he : s.editingSale = some editing) : editing.id ≠ 0 := by
  have := (reachable_ledgerInv s h).2.2 editing he
  omega

theorem editedThenDeleted_reachable : Reachable editedThenDeleted := by
  apply reachable_runActions _ _ soldOne_reachable
  simp [actionsEnabled, actionEnabled, soldOne_sales]

/-- C10 (as stated, refuted): an edit commit on a ledger without the edited
sale records the draft nowhere.  The sale of one shirt is opened for editing
and then deleted in the history, so the ledger is empty while the draft still
carries the id of the sale being edited.  The commit of the draft goes
through (the stock goes from 11 to 10, the draft is reset and the edit mode is
left) and yields a ledger of the same length, 0, in which no entry has the
draft's date, items and total. -/
theorem edit_commit_after_delete_records_nothing :
    Reachable editedThenDeleted ∧
    editedThenDeleted.editingSale = some saleOfOne ∧
    editedThenDeleted.newSale.id = some saleOfOne.id ∧
    editedThenDeleted.newSale.items = [0] ∧
    editedThenDeleted.sales = [] ∧
    editedThenDeleted.inventory.map (fun item => item.quantity) = [11] ∧
    (handleCompleteSale "2024-05-02" editedThenDeleted).inventory.map
      (fun item => item.quantity) = [10] ∧
    (handleCompleteSale "2024-05-02" editedThenDeleted).newSale = emptySale "2024-05-02" ∧
    (handleCompleteSale "2024-05-02" editedThenDeleted).editingSale = none ∧
    (handleCompleteSale "2024-05-02" editedThenDeleted).sales = [] ∧
    ¬ ∃ sale ∈ (handleCompleteSale "2024-05-02" editedThenDeleted).sales,
        sale.id = saleOfOne.id := by
  have hsales : (handleCompleteSale "2024-05-02" editedThenDeleted).sales = [] := by decide
  refine ⟨editedThenDeleted_reachable, rfl, rfl, by decide, by decide, by decide, by decide,
    rfl, rfl, hsales, ?_⟩
  rw [hsales]; simp

/-- C10 (amended): an edit commit replaces, a fresh commit appends.  For a
non-empty draft, when a sale is being edited (its id is a truthy number, as
every id the code assigns is) the ledger keeps its length, every entry with
the id of the edited sale becomes the draft's date, items and total under that
id, and every other entry stays where and as it was; so when the ledger holds
an entry with that id, the resulting ledger holds the draft under that id at
the place of that entry.  When no sale is being edited the ledger gains one
sale at the end, made of the draft's date, items and total, under an id that
no sale of the ledger has.  The line objects are untouched. -/
theorem commit_replaces_or_appends (today : String) (s : AppState)
    (hne : s.newSale.items ≠ []) :
    (handleCompleteSale today s).heap = s.heap ∧
    (∀ editing, s.editingSale = some editing → editing.id ≠ 0 →
      (handleCompleteSale today s).sales.length = s.sales.length ∧
      (∀ (i : Nat) (sale : Sale), s.sales[i]? = some sale →
        (sale.id = editing.id →
          (handleCompleteSale today s).sales[i]? = some
            { id := editing.id, date := s.newSale.date, items := s.newSale.items
              total := s.newSale.total }) ∧
        (sale.id ≠ editing.id → (handleCompleteSale today s).sales[i]? = some sale)) ∧
      ((∃ sale ∈ s.sales, sale.id = editing.id) →
        ∃ i : Nat, (s.sales[i]?.map fun sale => sale.id) = some editing.id ∧
          (handleCompleteSale today s).sales[i]? = some
            { id := editing.id, date := s.newSale.date, items := s.newSale.items
              total := s.newSale.total } ∧
          ({ id := editing.id, date := s.newSale.date, items := s.newSale.items
             total := s.newSale.total } : Sale) ∈ (handleCompleteSale today s).sales)) ∧
    (s.editingSale = none →
      (∀ sale ∈ s.sales, sale.id ≠ freshSaleId s.sales) ∧
      (handleCompleteSale today s).sales
        = s.sales ++
            [{ id := freshSaleId s.sales, date := s.newSale.date, items := s.newSale.items
               total := s.newSale.total }]) := by
  refine ⟨?_, ?_, ?_⟩
  · simp [handleCompleteSale, hne]
  · intro editing he hid
    have hsales : (handleCompleteSale today s).sales
        = s.sales.map fun sale =>
            if sale.id = editing.id then saleRecord s.newSale editing.id else sale := by
      simp [handleCompleteSale, hne, he, commitSaleId, hid]
    have hget : ∀ (i : Nat) (sale : Sale), s.sales[i]? = some sale → sale.id = editing.id →
        (handleCompleteSale today s).sales[i]? = some
          { id := editing.id, date := s.newSale.date, items := s.newSale.items
            total := s.newSale.total } := by
      intro i sale hi h
      rw [hsales, List.getElem?_map, hi]
      simp [h, saleRecord]
    refine ⟨by rw [hsales, List.length_map], ?_, ?_⟩
    · intro i sale hi
      refine ⟨hget i sale hi, ?_⟩
      intro h
      rw [hsales, List.getElem?_map, hi]
      simp [h]
    · rintro ⟨sale, hmem, hid2⟩
      obtain ⟨i, hi⟩ := List.getElem?_of_mem hmem
      refine ⟨i, by rw [hi]; simp [hid2], hget i sale hi hid2, ?_⟩
      exact List.getElem?_mem (hget i sale hi hid2)
  · intro hf
    constructor
    · intro sale hs heq
      have := lt_freshSaleId s.sales sale hs
      omega
    · simp [handleCompleteSale, hne, hf, commitSaleId, saleRecord]

/-- Witness of C10 (amended): the sale of four shirts is opened for editing
and re-dated, then committed: the ledger holds the sale, and after the commit
it holds the re-dated draft under the id 1 at the same place; and the draft of
four shirts is committed on an empty ledger. -/
theorem commit_replaces_or_appends_witness :
    (setSaleDate (handleEditSale soldFour saleOfFour) "2024-05-09").newSale.items ≠ [] ∧
    (setSaleDate (handleEditSale soldFour saleOfFour) "2024-05-09").sales[0]? = some saleOfFour ∧
    (handleCompleteSale "2024-05-10"
        (setSaleDate (handleEditSale soldFour saleOfFour) "2024-05-09")).sales[0]?
      = some { id := 1, date := "2024-05-09", items := [0], total := 598 / 5 } ∧
    (handleCompleteSale "2024-05-10"
        (setSaleDate (handleEditSale soldFour saleOfFour) "2024-05-09")).sales.length = 1 ∧
    ({ id := 1, date := "2024-05-09", items := [0], total := 598 / 5 } : Sale) ∈
      (handleCompleteSale "2024-05-10"
        (setSaleDate (handleEditSale soldFour saleOfFour) "2024-05-09")).sales ∧
    draftOfFour.newSale.items ≠ [] ∧
    (handleCompleteSale "2024-05-01" draftOfFour).sales
      = draftOfFour.sales ++
          [{ id := freshSaleId draftOfFour.sales, date := draftOfFour.newSale.date
             items := draftOfFour.newSale.items, total := draftOfFour.newSale.total }] :=
  have hget : (setSaleDate (handleEditSale soldFour saleOfFour) "2024-05-09").sales[0]?
      = some saleOfFour := by
    show soldFour.sales[0]? = some saleOfFour
    rw [soldFour_sales]; rfl
  have hedit := (commit_replaces_or_appends "2024-05-10"
    (setSaleDate (handleEditSale soldFour saleOfFour) "2024-05-09") (by decide)).2.1
      saleOfFour rfl (by decide)
  ⟨by decide, hget, (hedit.2.1 0 saleOfFour hget).1 rfl,
    by rw [hedit.1]; show soldFour.sales.length = 1; rw [soldFour_sales]; rfl,
    (hedit.2.2 ⟨saleOfFour, List.getElem?_mem hget, rfl⟩).elim fun _ h => h.2.2,
    by decide,
    ((commit_replaces_or_appends "2024-05-01" draftOfFour (by decide)).2.2 rfl).2⟩

/-! ## The invariant of the line store -/

theorem linesInv_handleAddToSale (s : AppState) (item : Item) (h : LinesInv s) :
    LinesInv (handleAddToSale s item) := by
  unfold handleAddToSale
  split
  · exact h
  · obtain ⟨hq, hd, hs⟩ := h
    refine ⟨?_, ?_, ?_⟩
    · intro r hr
      have hr1 : r < s.next + 1 := hr
      show 1 ≤ (Function.update s.heap s.next { item with quantity := 1 } r).quantity
      by_cases hrn : r = s.next
      · subst hrn; simp
      · rw [Function.update_noteq hrn]
        exact hq r (Nat.lt_of_le_of_ne (Nat.lt_succ_iff.mp hr1) hrn)
    · intro r hr
      have hr1 : r ∈ s.newSale.items ++ [s.next] := hr
      show r < s.next + 1
      rcases List.mem_append.mp hr1 with hr2 | hr2
      · exact Nat.lt_succ_of_lt (hd r hr2)
      · rw [List.mem_singleton.mp hr2]; exact Nat.lt_succ_self _
    · intro sale hsale r hr
      exact Nat.lt_succ_of_lt (hs sale hsale r hr)

theorem linesInv_handleUpdateSaleItem (s : AppState) (index : Nat) (change : Int)
    (h : LinesInv s) : LinesInv (handleUpdateSaleItem s index change) := by
  unfold handleUpdateSaleItem
  split
  · exact h
  · rename_i r hr
    simp only
    split
    · exact h
    · rename_i hq1
      split
      · exact h
      · obtain ⟨hq, hd, hs⟩ := h
        refine ⟨?_, hd, hs⟩
        intro x hx
        simp only
        by_cases hxr : x = r
        · subst hxr; simp only [Function.update_same]; omega
        · rw [Function.update_noteq hxr]; exact hq x hx

theorem linesInv_handleCompleteSale (today : String) (s : AppState) (h : LinesInv s) :
    LinesInv (handleCompleteSale today s) := by
  unfold handleCompleteSale
  split
  · exact h
  · obtain ⟨hq, hd, hs⟩ := h
    refine ⟨hq, by simp [emptySale], ?_⟩
    intro sale hsale r hr
    simp only at hsale
    cases he : s.editingSale with
    | none =>
      simp only [he, List.mem_append, List.mem_singleton] at hsale
      rcases hsale with hsale | hsale
      · exact hs sale hsale r hr
      · subst hsale; exact hd r hr
    | some editing =>
      simp only [he, List.mem_map] at hsale
      obtain ⟨old, hold, heq⟩ := hsale
      by_cases hc : old.id = editing.id
      · simp only [hc, if_true] at heq
        subst heq; exact hd r hr
      · simp only [hc, if_false] at heq
        subst heq; exact hs old hold r hr

theorem linesInv_step (s : AppState) (a : Action) (h : LinesInv s) (he : actionEnabled s a) :
    LinesInv (applyAction s a) := by
  cases a with
  | catalogEdit inventory => exact h
  | deleteItem id => exact h
  | addToSale item => exact linesInv_handleAddToSale s item h
  | updateSaleItem index change => exact linesInv_handleUpdateSaleItem s index change h
  | removeSaleItem index =>
    obtain ⟨hq, hd, hs⟩ := h
    refine ⟨hq, ?_, hs⟩
    intro r hr
    exact hd r ((List.eraseIdx_sublist _ _).subset hr)
  | setSaleDate text => exact h
  | completeSale today => exact linesInv_handleCompleteSale today s h
  | editSale sale =>
    obtain ⟨hq, hd, hs⟩ := h
    exact ⟨hq, fun r hr => hs sale he r hr, hs⟩
  | cancelEdit today =>
    obtain ⟨hq, hd, hs⟩ := h
    simp only [applyAction, cancelEdit]
    split
    · exact ⟨hq, hd, hs⟩
    · exact ⟨hq, by simp [emptySale], hs⟩
  | deleteSale id =>
    obtain ⟨hq, hd, hs⟩ := h
    simp only [applyAction, handleDeleteSale]
    split
    · exact ⟨hq, hd, hs⟩
    · exact ⟨hq, hd, fun sale hsale => hs sale (List.mem_of_mem_filter hsale)⟩

/-- Every reachable state satisfies the invariant of the line store. -/
theorem reachable_linesInv (s : AppState) (h : Reachable s) : LinesInv s := by
  induction h with
  | init today inventory => simp [LinesInv, initialState, emptySale]
  | step a _ he ih => exact linesInv_step _ a ih he
theorem editingOne_reachable : Reachable editingOne := by
  apply reachable_runActions _ _ soldOne_reachable
  simp [actionsEnabled, actionEnabled, soldOne_sales]

theorem oneLineDraft_reachable : Reachable oneLineDraft := by
  apply reachable_runActions _ _ (Reachable.init _ _)
  simp [actionsEnabled, actionEnabled, initialState]

/-- C14 (as stated, refuted): a raise is accepted for a line whose item is no
longer in the catalog.  The shirt was deleted after the line was added, so
its available quantity is 0 and a change of +1 exceeds it, yet the line goes
from 1 to 2 and the total from one price to two. -/
theorem raise_accepted_for_deleted_item :
    orphanDraft.inventory = [] ∧
    (orphanDraft.lines orphanDraft.newSale.items).map (fun line => (line.id, line.quantity))
      = [(1, 1)] ∧
    ((handleUpdateSaleItem orphanDraft 0 1).lines
        (handleUpdateSaleItem orphanDraft 0 1).newSale.items).map
      (fun line => (line.id, line.quantity)) = [(1, 2)] ∧
    orphanDraft.newSale.total = 299 / 10 ∧
    (handleUpdateSaleItem orphanDraft 0 1).newSale.total = 299 / 5 := by
  refine ⟨by decide, by decide, by decide, ?_, ?_⟩
  · simp [orphanDraft, runActions, applyAction, initialState, handleAddToSale, handleDeleteItem,
      shirt, emptySale]
  · simp [orphanDraft, runActions, applyAction, initialState, handleAddToSale, handleDeleteItem,
      handleUpdateSaleItem, shirt, emptySale, itemsTotal]
    norm_num

/-- C14 (amended): the stock rule of a raise applies to a line whose item is
still in the catalog.  For a change (the claim takes it > 0) on a line of
the draft: when the catalog holds an item with the line's id and the change exceeds the quantity
of the first such item, the state (lines and total included) is unchanged;
when the catalog holds no such item there is no stock check and the line
takes the new quantity, provided it is at least 1. -/
theorem raise_checked_against_catalog_item (s : AppState) (index : Nat) (change : Int) (r : Ref)
    (hr : s.newSale.items[index]? = some r) :
    (∀ original : Item,
      s.inventory.find? (fun i => decide (i.id = (s.heap r).id)) = some original →
      original.quantity < change →
      handleUpdateSaleItem s index change = s) ∧
    (s.inventory.find? (fun i => decide (i.id = (s.heap r).id)) = none →
      1 ≤ (s.heap r).quantity + change →
      (handleUpdateSaleItem s index change).newSale.items = s.newSale.items ∧
      ((handleUpdateSaleItem s index change).heap r).quantity = (s.heap r).quantity + change) := by
  constructor
  · intro original horig hgt
    have hins : decide ((s.heap r).quantity + change - (s.heap r).quantity > original.quantity)
        = true := by
      rw [decide_eq_true_iff]; omega
    simp only [handleUpdateSaleItem, List.get?_eq_getElem?, hr, horig, hins, if_true, ite_self]
  · intro hnone hq
    have hq2 : ¬ (s.heap r).quantity + change < 1 := by omega
    simp [handleUpdateSaleItem, List.get?_eq_getElem?, hr, hnone, hq2]

/-- Witness of C14 (amended): stock 10, the line at 4, a change of +11; and
the line of the deleted shirt, which takes a change of +1. -/
theorem raise_checked_against_catalog_item_witness :
    draftOfFour.newSale.items[0]? = some 0 ∧
    handleUpdateSaleItem draftOfFour 0 11 = draftOfFour ∧
    orphanDraft.newSale.items[0]? = some 0 ∧
    ((handleUpdateSaleItem orphanDraft 0 1).heap 0).quantity = (orphanDraft.heap 0).quantity + 1 :=
  ⟨rfl,
    (raise_checked_against_catalog_item draftOfFour 0 11 0 rfl).1 (shirt 10) rfl
      (by decide),
    rfl,
    ((raise_checked_against_catalog_item orphanDraft 0 1 0 rfl).2 rfl
      (by decide)).2⟩

/-- C15 (defect in the code): a line is raised above the stock.  With stock
10 and the line at 4, a change of +7 passes the guard of
`handleUpdateSaleItem`, which compares the change (7) and not the new
quantity (11) with the stock: the line becomes 11. -/
theorem raise_above_stock_accepted :
    draftOfFour.inventory.map (fun item => (item.id, item.quantity)) = [(1, 10)] ∧
    (draftOfFour.lines draftOfFour.newSale.items).map (fun line => (line.id, line.quantity))
      = [(1, 4)] ∧
    ((handleUpdateSaleItem draftOfFour 0 7).lines
        (handleUpdateSaleItem draftOfFour 0 7).newSale.items).map
      (fun line => (line.id, line.quantity)) = [(1, 11)] := by
  decide

/-- C16: line quantities stay positive.  In every reachable state every line
of the draft and every line of every sale of the ledger has quantity at
least 1; a change whose result would be below 1 leaves the whole state
unchanged, and no change removes or adds a line of the draft. -/
theorem line_quantities_stay_positive (s : AppState) (h : Reachable s) :
    (∀ line ∈ s.lines s.newSale.items, 1 ≤ line.quantity) ∧
    (∀ sale ∈ s.sales, ∀ line ∈ s.lines sale.items, 1 ≤ line.quantity) ∧
    (∀ (index : Nat) (change : Int) (r : Ref), s.newSale.items[index]? = some r →
      (s.heap r).quantity + change < 1 → handleUpdateSaleItem s index change = s) ∧
    (∀ (index : Nat) (change : Int),
      (handleUpdateSaleItem s index change).newSale.items = s.newSale.items) := by
  obtain ⟨hq, hd, hs⟩ := reachable_linesInv s h
  refine ⟨?_, ?_, ?_, ?_⟩
  · intro line hline
    obtain ⟨r, hr, rfl⟩ := List.mem_map.mp hline
    exact hq r (hd r hr)
  · intro sale hsale line hline
    obtain ⟨r, hr, rfl⟩ := List.mem_map.mp hline
    exact hq r (hs sale hsale r hr)
  · intro index change r hr hlt
    simp [handleUpdateSaleItem, List.get?_eq_getElem?, hr, hlt]
  · intro index change
    unfold handleUpdateSaleItem
    split
    · rfl
    · simp only
      split
      · rfl
      · split <;> rfl

/-- Witness of C16: the sale of one shirt opened for editing; the "-" button
on its line of quantity 1 changes nothing. -/
theorem line_quantities_stay_positive_witness :
    Reachable editingOne ∧
    editingOne.newSale.items = [0] ∧ editingOne.sales.map (fun sale => sale.items) = [[0]] ∧
    (∀ line ∈ editingOne.lines editingOne.newSale.items, 1 ≤ line.quantity) ∧
    handleUpdateSaleItem editingOne 0 (-1) = editingOne :=
  ⟨editingOne_reachable, by decide, by decide,
    (line_quantities_stay_positive editingOne editingOne_reachable).1,
    (line_quantities_stay_positive editingOne editingOne_reachable).2.2.1 0 (-1) 0 rfl
      (by decide)⟩

/-- C17: adding an item to the draft.  In every reachable state, an item
whose quantity is at most 0 leaves the state unchanged; any other item adds
one line object at the end of the draft, the copy of the item with quantity
1 (so with its name and price), whether or not the draft already has a line
of that item; the earlier lines of the draft and the lines of the ledger are
unchanged, the total grows by the item's price, and the catalog and the
ledger are untouched. -/
theorem add_to_sale_appends_one_line (s : AppState) (h : Reachable s) (item : Item) :
    (item.quantity ≤ 0 → handleAddToSale s item = s) ∧
    (0 < item.quantity →
      (handleAddToSale s item).newSale.items = s.newSale.items ++ [s.next] ∧
      (handleAddToSale s item).lines (handleAddToSale s item).newSale.items
        = s.lines s.newSale.items ++ [{ item with quantity := 1 }] ∧
      (handleAddToSale s item).newSale.total = s.newSale.total + item.price ∧
      (handleAddToSale s item).inventory = s.inventory ∧
      (handleAddToSale s item).sales = s.sales ∧
      ∀ sale ∈ s.sales, (handleAddToSale s item).lines sale.items = s.lines sale.items) := by
  obtain ⟨_, hd, hs⟩ := reachable_linesInv s h
  constructor
  · intro hq; simp [handleAddToSale, hq]
  · intro hq
    have hq2 : ¬ item.quantity ≤ 0 := by omega
    have hold : ∀ refs : List Ref, (∀ r ∈ refs, r < s.next) →
        refs.map (Function.update s.heap s.next { item with quantity := 1 }) = refs.map s.heap := by
      intro refs hrefs
      apply List.map_congr_left
      intro r hr
      exact Function.update_noteq (Nat.ne_of_lt (hrefs r hr)) _ _
    refine ⟨?_, ?_, ?_, ?_, ?_, ?_⟩
    · simp [handleAddToSale, hq2]
    · simp only [handleAddToSale, hq2, if_false, AppState.lines, List.map_append, List.map_cons,
        List.map_nil, Function.update_same]
      rw [hold _ hd]
    · simp [handleAddToSale, hq2]
    · simp [handleAddToSale, hq2]
    · simp [handleAddToSale, hq2]
    · intro sale hsale
      simp only [handleAddToSale, hq2, if_false, AppState.lines]
      exact hold _ (hs sale hsale)

/-- Witness of C17: a second line for a shirt that already has a line, and
a shirt out of stock. -/
theorem add_to_sale_appends_one_line_witness :
    Reachable oneLineDraft ∧
    oneLineDraft.lines oneLineDraft.newSale.items = [shirt 1] ∧
    (handleAddToSale oneLineDraft (shirt 10)).lines
        (handleAddToSale oneLineDraft (shirt 10)).newSale.items
      = oneLineDraft.lines oneLineDraft.newSale.items ++ [shirt 1] ∧
    handleAddToSale oneLineDraft (shirt 0) = oneLineDraft :=
  ⟨oneLineDraft_reachable, rfl,
    ((add_to_sale_appends_one_line oneLineDraft oneLineDraft_reachable (shirt 10)).2
      (by decide)).2.1,
    (add_to_sale_appends_one_line oneLineDraft oneLineDraft_reachable (shirt 0)).1 (by decide)⟩

/-! ## The item form -/

/-- On a non-empty array `Math.max` returns one of its elements. -/
theorem mathMax_mem : ∀ (l : List Int), l ≠ [] → mathMax l ∈ l
  | [], h => absurd rfl h
  | [x], _ => by simp [mathMax]
  | x :: y :: rest, _ => by
    rw [mathMax]
    rcases max_choice x (mathMax (y :: rest)) with h | h
    · rw [h]; exact List.mem_cons_self _ _
    · rw [h]; exact List.mem_cons_of_mem _ (mathMax_mem (y :: rest) (by simp))

/-- The fresh item id is above every id of the catalog. -/
theorem lt_freshItemId (inventory : List Item) (item : Item) (h : item ∈ inventory) :
    item.id < freshItemId inventory := by
  have hpos : 0 < inventory.length := List.length_pos_of_mem h
  have hle : item.id ≤ mathMax (inventory.map fun i => i.id) :=
    le_mathMax _ _ (List.mem_map.mpr ⟨item, h, rfl⟩)
  simp only [freshItemId, hpos, if_true]
  omega

theorem saveItemId_not_mem_filter (inventory : List Item) (formId : Option Int) :
    ∀ item ∈ inventory.filter (fun item => decide (some item.id ≠ formId)),
      item.id ≠ saveItemId inventory formId := by
  intro item hitem
  have hmem : item ∈ inventory := List.mem_of_mem_filter hitem
  have hne : some item.id ≠ formId := by simpa using (List.mem_filter.mp hitem).2
  have hfresh := lt_freshItemId inventory item hmem
  unfold saveItemId
  cases formId with
  | none => simp only; omega
  | some k =>
    simp only
    split
    · intro hc; exact hne (by rw [hc])
    · omega

theorem nodup_saved_ids (inventory : List Item) (formId : Option Int) (new : Item)
    (hnd : (inventory.map fun i => i.id).Nodup) (hid : new.id = saveItemId inventory formId) :
    (((inventory.filter fun item => decide (some item.id ≠ formId)) ++ [new]).map
      fun i => i.id).Nodup := by
  rw [List.map_append, List.nodup_append]
  refine ⟨hnd.sublist (List.Sublist.map _ (List.filter_sublist _)), by simp, ?_⟩
  intro x hx hx2
  obtain ⟨item, hitem, rfl⟩ := List.mem_map.mp hx
  simp only [List.map_cons, List.map_nil, List.mem_singleton] at hx2
  exact saveItemId_not_mem_filter inventory formId item hitem (by rw [hx2, hid])

/-- The handler rejects exactly the forms with a falsy field, and saves the
others with the parsed price and quantity. -/
theorem handleAddItem_eq (s : AppState) (form : ItemForm) :
    handleAddItem s form =
      if form.name = "" ∨ form.category = "" ∨ form.price.truthy = false
          ∨ form.quantity.truthy = false then .rejected
      else
        match parsePrice form.price, parseQuantity form.quantity with
        | some price, some quantity =>
          .saved
            { s with
              inventory :=
                (s.inventory.filter fun item => decide (some item.id ≠ form.id)) ++
                  [{ id := saveItemId s.inventory form.id, name := form.name
                     category := form.category, price := price, quantity := quantity
                     photo := form.photo }] }
        | _, _ => .savedNotANumber := rfl

theorem jsParseFloat_scenario : jsParseFloat "29.90" = some (299 / 10) := by
  have h : jsParseDecimal "29.90" = some (2990, -2) := by decide
  simp [jsParseFloat, h]
  norm_num

/-- A form whose four fields are filled and whose price and quantity parse
to numbers is saved. -/
theorem handleAddItem_of_parsed (s : AppState) (form : ItemForm) (price : ℚ) (quantity : Int)
    (hname : form.name ≠ "") (hcategory : form.category ≠ "")
    (hprice : form.price.truthy = true) (hquantity : form.quantity.truthy = true)
    (hp : parsePrice form.price = some price) (hq : parseQuantity form.quantity = some quantity) :
    handleAddItem s form = .saved
      { s with
        inventory :=
          (s.inventory.filter fun item => decide (some item.id ≠ form.id)) ++
            [{ id := saveItemId s.inventory form.id, name := form.name
               category := form.category, price := price, quantity := quantity
               photo := form.photo }] } := by
  rw [handleAddItem_eq]
  simp only [hname, hcategory, hprice, hquantity, hp, hq, false_or, Bool.true_eq_false, if_false]

/-- A save comes from a form whose four fields are filled and whose price
and quantity parse to numbers. -/
theorem handleAddItem_saved (s s' : AppState) (form : ItemForm)
    (h : handleAddItem s form = .saved s') :
    ∃ (price : ℚ) (quantity : Int),
      parsePrice form.price = some price ∧ parseQuantity form.quantity = some quantity ∧
      s' = { s with
        inventory :=
          (s.inventory.filter fun item => decide (some item.id ≠ form.id)) ++
            [{ id := saveItemId s.inventory form.id, name := form.name
               category := form.category, price := price, quantity := quantity
               photo := form.photo }] } := by
  rw [handleAddItem_eq] at h
  split at h
  · cases h
  · split at h
    · rename_i price quantity hp hq
      injection h with h
      exact ⟨price, quantity, hp, hq, h.symm⟩
    · cases h

/-- With distinct keys, the filter that drops a key drops one element. -/
theorem length_filter_id_ne (inventory : List Item) (k : Int)
    (hnd : (inventory.map fun i => i.id).Nodup) (hk : ∃ item ∈ inventory, item.id = k) :
    (inventory.filter fun i => decide (i.id ≠ k)).length + 1 = inventory.length := by
  induction inventory with
  | nil => obtain ⟨item, hitem, _⟩ := hk; simp at hitem
  | cons a rest ih =>
    rw [List.map_cons, List.nodup_cons] at hnd
    by_cases ha : a.id = k
    · have hrest : (rest.filter fun i => decide (i.id ≠ k)) = rest := by
        rw [List.filter_eq_self]
        intro item hitem
        have : item.id ≠ k := by
          intro hc; exact hnd.1 (List.mem_map.mpr ⟨item, hitem, by rw [hc, ha]⟩)
        simpa using this
      rw [List.filter_cons, if_neg (by simp [ha]), hrest]
      simp
    · obtain ⟨item, hitem, hid⟩ := hk
      have hitem2 : item ∈ rest := by
        rcases List.mem_cons.mp hitem with h | h
        · exact absurd (by rw [← h]; exact hid) ha
        · exact h
      rw [List.filter_cons, if_pos (by simp [ha])]
      simp only [List.length_cons]
      have := ih hnd.2 ⟨item, hitem2, hid⟩
      omega

/-- C11: fresh item ids.  A form without id whose four fields are filled and
whose price and quantity parse to numbers is saved as one new item at the end
of the catalog, all other items kept: its id is 1 for an empty catalog and
the largest id plus 1 otherwise, and its price and quantity are the parsed
fields. -/
theorem fresh_item_id (s : AppState) (form : ItemForm) (price : ℚ) (quantity : Int)
    (hid : form.id = none) (hname : form.name ≠ "") (hcategory : form.category ≠ "")
    (hprice : form.price.truthy = true) (hquantity : form.quantity.truthy = true)
    (hp : parsePrice form.price = some price) (hq : parseQuantity form.quantity = some quantity) :
    handleAddItem s form = .saved
      { s with
        inventory := s.inventory ++
          [{ id := freshItemId s.inventory, name := form.name, category := form.category
             price := price, quantity := quantity, photo := form.photo }] } ∧
    (s.inventory = [] → freshItemId s.inventory = 1) ∧
    (s.inventory ≠ [] →
      (∃ item ∈ s.inventory, freshItemId s.inventory = item.id + 1) ∧
      ∀ item ∈ s.inventory, item.id < freshItemId s.inventory) := by
  refine ⟨?_, ?_, ?_⟩
  · have hfilter : (s.inventory.filter fun item => decide (some item.id ≠ form.id))
        = s.inventory := by
      rw [List.filter_eq_self]; intro item _; simp [hid]
    rw [handleAddItem_of_parsed s form price quantity hname hcategory hprice hquantity hp hq,
      hfilter]
    simp [saveItemId, hid]
  · intro hempty; simp [freshItemId, hempty]
  · intro hne
    constructor
    · have hmem := mathMax_mem (s.inventory.map fun i => i.id) (by simpa using hne)
      obtain ⟨item, hitem, hitemid⟩ := List.mem_map.mp hmem
      refine ⟨item, hitem, ?_⟩
      have hpos : 0 < s.inventory.length := List.length_pos_of_mem hitem
      simp only [freshItemId, hpos, if_true]
      omega
    · intro item hitem; exact lt_freshItemId s.inventory item hitem

/-- Witness of C11: the scenario.  On the empty catalog the form of the shirt
(price "29.90", quantity "10") is saved under id 1 with quantity 10, and a
second form is then saved under id 2. -/
theorem fresh_item_id_witness :
    shirtForm.id = none ∧
    parsePrice shirtForm.price = some (299 / 10) ∧ parseQuantity shirtForm.quantity = some 10 ∧
    handleAddItem emptyCatalog shirtForm = .saved savedShirt ∧
    savedShirt.inventory.map (fun item => (item.id, item.quantity)) = [(1, 10)] ∧
    handleAddItem savedShirt hatForm = .saved
      { savedShirt with
        inventory := savedShirt.inventory ++
          [{ id := 2, name := "Hat", category := "Caps", price := 15, quantity := 3
             photo := hatForm.photo }] } :=
  have hhat : parsePrice hatForm.price = some 15 := by
    have h : jsParseDecimal "15" = some (15, 0) := by decide
    simp [hatForm, blankItem, parsePrice, jsParseFloat, h]
  ⟨rfl, jsParseFloat_scenario, by decide,
    (fresh_item_id emptyCatalog shirtForm (299 / 10) 10 rfl (by decide) (by decide) (by decide)
      (by decide) jsParseFloat_scenario (by decide)).1,
    by decide,
    (fresh_item_id savedShirt hatForm 15 3 rfl (by decide) (by decide) (by decide)
      (by decide) hhat (by decide)).1⟩

/-- C12: item ids stay unique.  When the ids of the catalog are pairwise
distinct they are still so after every save of `handleAddItem` (whatever the
id of the form) and after `handleDeleteItem`; and a save of a form with the
(truthy) id of a catalog item leaves exactly one item of that id, made of the
form's name, category and photo and of its parsed price and quantity, with as
many items as before and all other items as they were, in their order. -/
theorem item_ids_stay_unique (s : AppState) (hnd : (s.inventory.map fun i => i.id).Nodup) :
    (∀ (form : ItemForm) (s' : AppState), handleAddItem s form = .saved s' →
      (s'.inventory.map fun i => i.id).Nodup) ∧
    (∀ id : Int, ((handleDeleteItem s id).inventory.map fun i => i.id).Nodup) ∧
    (∀ (form : ItemForm) (s' : AppState) (k : Int), form.id = some k → k ≠ 0 →
      (∃ item ∈ s.inventory, item.id = k) → handleAddItem s form = .saved s' →
      ∃ (price : ℚ) (quantity : Int),
        parsePrice form.price = some price ∧ parseQuantity form.quantity = some quantity ∧
        s'.inventory.filter (fun i => decide (i.id = k))
          = [{ id := k, name := form.name, category := form.category, price := price
               quantity := quantity, photo := form.photo }] ∧
        s'.inventory.length = s.inventory.length ∧
        s'.inventory.filter (fun i => decide (i.id ≠ k))
          = s.inventory.filter (fun i => decide (i.id ≠ k))) := by
  refine ⟨?_, ?_, ?_⟩
  · intro form s' h
    obtain ⟨price, quantity, _, _, rfl⟩ := handleAddItem_saved s s' form h
    exact nodup_saved_ids s.inventory form.id _ hnd rfl
  · intro id
    exact hnd.sublist (List.Sublist.map _ (List.filter_sublist _))
  · intro form s' k hid hk hmem h
    obtain ⟨price, quantity, hp, hq, rfl⟩ := handleAddItem_saved s s' form h
    have hpred : (fun item : Item => decide (some item.id ≠ form.id))
        = fun item => decide (item.id ≠ k) := by
      funext item; simp [hid]
    have hsave : saveItemId s.inventory form.id = k := by simp [saveItemId, hid, hk]
    refine ⟨price, quantity, hp, hq, ?_, ?_, ?_⟩
    · simp only [hpred, hsave, List.filter_append, List.filter_filter]
      simp
    · simp only [hpred, List.length_append, List.length_singleton]
      exact length_filter_id_ne s.inventory k hnd hmem
    · simp only [hpred, hsave, List.filter_append, List.filter_filter]
      simp

/-- Witness of C12: the shirt of the scenario is opened by "Editar", renamed
and saved. -/
theorem item_ids_stay_unique_witness :
    (savedShirt.inventory.map fun i => i.id).Nodup ∧
    renamedShirtForm.id = some 1 ∧
    handleAddItem savedShirt renamedShirtForm = .saved renamedCatalog ∧
    (∃ (price : ℚ) (quantity : Int),
      parsePrice renamedShirtForm.price = some price ∧
      parseQuantity renamedShirtForm.quantity = some quantity ∧
      renamedCatalog.inventory.filter (fun i => decide (i.id = 1))
        = [{ id := 1, name := renamedShirtForm.name, category := renamedShirtForm.category
             price := price, quantity := quantity, photo := renamedShirtForm.photo }] ∧
      renamedCatalog.inventory.length = savedShirt.inventory.length ∧
      renamedCatalog.inventory.filter (fun i => decide (i.id ≠ 1))
        = savedShirt.inventory.filter (fun i => decide (i.id ≠ 1))) ∧
    ((handleDeleteItem savedShirt 1).inventory.map fun i => i.id).Nodup :=
  have hnd : (savedShirt.inventory.map fun i => i.id).Nodup := by decide
  have hsaved : handleAddItem savedShirt renamedShirtForm = .saved renamedCatalog :=
    handleAddItem_of_parsed savedShirt renamedShirtForm (299 / 10) 10 (by decide) (by decide)
      (by simp [renamedShirtForm, handleEditItem, FormField.truthy])
      (by decide) rfl (by decide)
  ⟨hnd, rfl, hsaved,
    (item_ids_stay_unique savedShirt hnd).2.2 renamedShirtForm renamedCatalog 1 rfl (by decide)
      ⟨_, List.mem_singleton.mpr rfl, rfl⟩ hsaved,
    (item_ids_stay_unique savedShirt hnd).2.1 1⟩

/-- C13 (as stated, refuted): a form whose quantity text is a negative
number or not a number is not rejected.  On the empty catalog the quantity
text "-5" is saved as the quantity -5, and the quantity text "abc" is saved
as `NaN`. -/
theorem negative_quantity_is_saved :
    negativeForm.quantity = .text "-5" ∧ jsParseInt "-5" = some (-5) ∧
    handleAddItem emptyCatalog negativeForm = .saved
      { emptyCatalog with
        inventory :=
          [{ id := 1, name := "Shirt", category := "Tops", price := 299 / 10, quantity := -5
             photo := blankItem.photo }] } ∧
    wordForm.quantity = .text "abc" ∧ jsParseInt "abc" = none ∧
    handleAddItem emptyCatalog wordForm = .savedNotANumber := by
  refine ⟨rfl, by decide, ?_, rfl, by decide, ?_⟩
  · exact handleAddItem_of_parsed emptyCatalog negativeForm (299 / 10) (-5) (by decide)
      (by decide) (by decide) (by decide) jsParseFloat_scenario (by decide)
  · have hq : parseQuantity wordForm.quantity = none := by decide
    have hp : parsePrice wordForm.price = some (299 / 10) := jsParseFloat_scenario
    rw [handleAddItem_eq]
    simp only [hp, hq]
    simp [wordForm, blankItem, FormField.truthy]

/-- C13 (amended): the validation of `handleAddItem` is a check of filled
fields.  A form is rejected, with no state set, exactly when its name,
category, price or quantity is falsy (empty text, or the number 0); every
other form whose price and quantity parse to numbers is saved with the item
carrying those numbers, whatever their sign. -/
theorem add_item_validation (s : AppState) (form : ItemForm) :
    (handleAddItem s form = .rejected ↔
      (form.name = "" ∨ form.category = "" ∨ form.price.truthy = false
        ∨ form.quantity.truthy = false)) ∧
    (∀ (price : ℚ) (quantity : Int),
      ¬ (form.name = "" ∨ form.category = "" ∨ form.price.truthy = false
        ∨ form.quantity.truthy = false) →
      parsePrice form.price = some price → parseQuantity form.quantity = some quantity →
      ∃ s', handleAddItem s form = .saved s' ∧
        s'.inventory.getLast? = some
          { id := saveItemId s.inventory form.id, name := form.name, category := form.category
            price := price, quantity := quantity, photo := form.photo }) := by
  constructor
  · rw [handleAddItem_eq]
    constructor
    · intro h
      by_contra hc
      rw [if_neg hc] at h
      split at h <;> cases h
    · intro h; rw [if_pos h]
  · intro price quantity hfilled hp hq
    rw [handleAddItem_eq, if_neg hfilled]
    simp only [hp, hq]
    exact ⟨_, rfl, by simp⟩

/-- Witness of C13 (amended): the form without a name is rejected and the
form with the quantity text "-5" is saved with the quantity -5. -/
theorem add_item_validation_witness :
    handleAddItem emptyCatalog { negativeForm with name := "" } = .rejected ∧
    ∃ s', handleAddItem emptyCatalog negativeForm = .saved s' ∧
      s'.inventory.getLast? = some
        { id := saveItemId emptyCatalog.inventory negativeForm.id, name := negativeForm.name
          category := negativeForm.category, price := 299 / 10, quantity := -5
          photo := negativeForm.photo } :=
  ⟨(add_item_validation emptyCatalog { negativeForm with name := "" }).1.mpr (Or.inl rfl),
    (add_item_validation emptyCatalog negativeForm).2 (299 / 10) (-5) (by decide)
      jsParseFloat_scenario (by decide)⟩

/-! ## The dashboard filter -/

theorem sameNumber_some_iff {α : Type} [DecidableEq α] (a : α) (b : Option α) :
    sameNumber (some a) b = true ↔ b = some a := by
  cases b with
  | none => simp [sameNumber]
  | some b => simp [sameNumber, eq_comm]

theorem sameNumber_none {α : Type} [DecidableEq α] (b : Option α) :
    sameNumber (none : Option α) b = false := by
  cases b <;> rfl

/-- C18 (as stated, refuted): sales whose date text is not a calendar date
are in monthly and yearly results.  On a device on UTC with the clock in May
2024: a sale recorded after the date field was emptied has the date text "",
which is no date, and passes the monthly and the yearly filter of the
reference date 2024-05-10; and a sale recorded with the date text 2024-02-30,
which names no day of the calendar (February 2024 has 29 days), is read as a
day of March 2024 and passes the yearly filter of the reference date
2024-05-10 and the monthly filter of the reference date 2024-03-15. -/
theorem sales_without_calendar_date_in_period_results :
    mayDevice.dateOf "" = none ∧
    undatedSold.sales.map (fun sale => (sale.id, sale.date)) = [(1, "")] ∧
    (getFilteredSales mayDevice .monthly "2024-05-10" undatedSold.sales).map
      (fun sale => (sale.id, sale.date)) = [(1, "")] ∧
    (getFilteredSales mayDevice .yearly "2024-05-10" undatedSold.sales).map
      (fun sale => (sale.id, sale.date)) = [(1, "")] ∧
    daysInMonth 2024 2 = 29 ∧
    mayDevice.dateOf "2024-02-30" = some (2024, 2) ∧
    Reachable rolledOverSold ∧
    rolledOverSold.sales.map (fun sale => (sale.id, sale.date)) = [(1, "2024-02-30")] ∧
    (getFilteredSales mayDevice .yearly "2024-05-10" rolledOverSold.sales).map
      (fun sale => (sale.id, sale.date)) = [(1, "2024-02-30")] ∧
    (getFilteredSales mayDevice .monthly "2024-03-15" rolledOverSold.sales).map
      (fun sale => (sale.id, sale.date)) = [(1, "2024-02-30")] := by
  refine ⟨by decide, by decide, by decide, by decide, by decide, by decide, ?_, by decide,
    by decide, by decide⟩
  apply reachable_runActions _ _ (Reachable.init _ _)
  simp [actionsEnabled, actionEnabled, initialState]

/-- C18 (amended): the period filter.  For every device, reference date and
ledger: a sale whose date text is not empty is in the monthly result exactly
when the built-in `Date` reads its text and the reference text as dates of
the same year and month, and in the yearly result exactly when it reads them
as dates of the same year, so that a sale whose date text is not empty and is
read as an Invalid Date is in neither result; a sale with an empty date text
is dated by the clock of the device, so it is in the monthly result exactly
when the reference date is in the current month of the current year and in the
yearly result exactly when it is in the current year; and in daily mode a sale
is in the result exactly when its date text equals the reference text. -/
theorem filter_by_period (device : Device) (filterDate : String) (sales : List Sale)
    (sale : Sale) :
    (sale.date ≠ "" → device.dateOf sale.date = none →
      sale ∉ getFilteredSales device .monthly filterDate sales ∧
      sale ∉ getFilteredSales device .yearly filterDate sales) ∧
    (sale.date ≠ "" →
      (sale ∈ getFilteredSales device .monthly filterDate sales ↔
        sale ∈ sales ∧ ∃ (year : Int) (month : Nat),
          device.dateOf sale.date = some (year, month) ∧
          device.dateOf filterDate = some (year, month)) ∧
      (sale ∈ getFilteredSales device .yearly filterDate sales ↔
        sale ∈ sales ∧ ∃ (year : Int) (month reference : Nat),
          device.dateOf sale.date = some (year, month) ∧
          device.dateOf filterDate = some (year, reference))) ∧
    (sale.date = "" →
      (sale ∈ getFilteredSales device .monthly filterDate sales ↔
        sale ∈ sales ∧ device.dateOf filterDate = some device.now) ∧
      (sale ∈ getFilteredSales device .yearly filterDate sales ↔
        sale ∈ sales ∧ (device.dateOf filterDate).map Prod.fst = some device.now.1)) ∧
    (sale ∈ getFilteredSales device .daily filterDate sales ↔
      sale ∈ sales ∧ sale.date = filterDate) := by
  refine ⟨?_, ?_, ?_, ?_⟩
  · intro hne hinvalid
    simp [getFilteredSales, saleDateOf, hne, hinvalid, sameNumber_none]
  · intro hne
    constructor
    · simp only [getFilteredSales, saleDateOf, hne, List.mem_filter, ne_eq, not_false_eq_true,
        if_true, Bool.and_eq_true]
      constructor
      · rintro ⟨hmem, h1, h2⟩
        refine ⟨hmem, ?_⟩
        cases hd : device.dateOf sale.date with
        | none => rw [hd] at h1; simp [sameNumber_none] at h1
        | some d =>
          rw [hd] at h1 h2
          simp only [Option.map_some', sameNumber_some_iff] at h1 h2
          cases hf : device.dateOf filterDate with
          | none => rw [hf] at h1; simp at h1
          | some f =>
            rw [hf] at h1 h2
            simp only [Option.map_some', Option.some.injEq] at h1 h2
            exact ⟨d.1, d.2, rfl, by rw [Option.some.injEq]; exact Prod.ext h1 h2⟩
      · rintro ⟨hmem, year, month, hd, hf⟩
        refine ⟨hmem, ?_, ?_⟩ <;> rw [hd, hf] <;> simp [sameNumber]
    · simp only [getFilteredSales, saleDateOf, hne, List.mem_filter, ne_eq, not_false_eq_true,
        if_true]
      constructor
      · rintro ⟨hmem, h1⟩
        refine ⟨hmem, ?_⟩
        cases hd : device.dateOf sale.date with
        | none => rw [hd] at h1; simp [sameNumber_none] at h1
        | some d =>
          rw [hd] at h1
          simp only [Option.map_some', sameNumber_some_iff] at h1
          cases hf : device.dateOf filterDate with
          | none => rw [hf] at h1; simp at h1
          | some f =>
            rw [hf] at h1
            simp only [Option.map_some', Option.some.injEq] at h1
            exact ⟨d.1, d.2, f.2, rfl, by rw [Option.some.injEq]; exact Prod.ext h1 rfl⟩
      · rintro ⟨hmem, year, month, reference, hd, hf⟩
        refine ⟨hmem, ?_⟩
        rw [hd, hf]; simp [sameNumber]
  · intro hempty
    constructor
    · simp only [getFilteredSales, saleDateOf, hempty, List.mem_filter, ne_eq, not_true_eq_false,
        if_false, Option.map_some', Bool.and_eq_true, sameNumber_some_iff]
      constructor
      · rintro ⟨hmem, h1, h2⟩
        refine ⟨hmem, ?_⟩
        cases hd : device.dateOf filterDate with
        | none => rw [hd] at h1; simp at h1
        | some d =>
          rw [hd] at h1 h2
          simp only [Option.map_some', Option.some.injEq] at h1 h2
          rw [Option.some.injEq]
          exact Prod.ext h1 h2
      · rintro ⟨hmem, hd⟩
        exact ⟨hmem, by rw [hd]; rfl, by rw [hd]; rfl⟩
    · simp only [getFilteredSales, saleDateOf, hempty, List.mem_filter, ne_eq, not_true_eq_false,
        if_false, Option.map_some', sameNumber_some_iff]
  · simp [getFilteredSales]

/-- Witness of C18 (amended), on a device on UTC: the text "next week" is read
as an Invalid Date and keeps a sale out of the monthly and yearly results; a
sale dated 2024-05-10T10:00:00Z is in the monthly result of the reference
2024-05, both texts being read as dates of May 2024, and in the yearly result
of the reference 2024; the undated sale is in the daily result of the empty
reference text. -/
theorem filter_by_period_witness :
    ({ id := 2, date := "next week", items := [], total := 5 } : Sale) ∉
      getFilteredSales mayDevice .monthly "2024-05-10"
        [{ id := 2, date := "next week", items := [], total := 5 }] ∧
    ({ id := 2, date := "next week", items := [], total := 5 } : Sale) ∉
      getFilteredSales mayDevice .yearly "2024-05-10"
        [{ id := 2, date := "next week", items := [], total := 5 }] ∧
    (({ id := 3, date := "2024-05-10T10:00:00Z", items := [], total := 5 } : Sale) ∈
      getFilteredSales mayDevice .monthly "2024-05"
        [{ id := 3, date := "2024-05-10T10:00:00Z", items := [], total := 5 }]) ∧
    (({ id := 3, date := "2024-05-10T10:00:00Z", items := [], total := 5 } : Sale) ∈
      getFilteredSales mayDevice .yearly "2024"
        [{ id := 3, date := "2024-05-10T10:00:00Z", items := [], total := 5 }]) ∧
    (({ id := 1, date := "", items := [], total := 5 } : Sale) ∈
      getFilteredSales mayDevice .daily "" [{ id := 1, date := "", items := [], total := 5 }]) :=
  have hinvalid := (filter_by_period mayDevice "2024-05-10"
      [{ id := 2, date := "next week", items := [], total := 5 }]
      { id := 2, date := "next week", items := [], total := 5 }).1 (by decide) (by decide)
  ⟨hinvalid.1, hinvalid.2,
    ((filter_by_period mayDevice "2024-05"
      [{ id := 3, date := "2024-05-10T10:00:00Z", items := [], total := 5 }]
      { id := 3, date := "2024-05-10T10:00:00Z", items := [], total := 5 }).2.1
        (by decide)).1.mpr
      ⟨List.mem_singleton.mpr rfl, 2024, 4, by decide, by decide⟩,
    ((filter_by_period mayDevice "2024"
      [{ id := 3, date := "2024-05-10T10:00:00Z", items := [], total := 5 }]
      { id := 3, date := "2024-05-10T10:00:00Z", items := [], total := 5 }).2.1
        (by decide)).2.mpr
      ⟨List.mem_singleton.mpr rfl, 2024, 4, 0, by decide, by decide⟩,
    (filter_by_period mayDevice "" [{ id := 1, date := "", items := [], total := 5 }]
      { id := 1, date := "", items := [], total := 5 }).2.2.2.mpr
      ⟨List.mem_singleton.mpr rfl, rfl⟩⟩

/-! ## Plain objects used as dictionaries -/

theorem ownValue_eq_none {α : Type} (object : JsObject α) (key : String)
    (h : ownValue object key = none) : key ∉ object.map Prod.fst := by
  intro hmem
  obtain ⟨entry, hentry, hkey⟩ := List.mem_map.mp hmem
  simp only [ownValue, Option.map_eq_none', List.find?_eq_none] at h
  exact h entry hentry (by simpa using hkey)

theorem ownValue_eq_some {α : Type} (object : JsObject α) (key : String) (cell : Cell α)
    (h : ownValue object key = some cell) : (key, cell) ∈ object := by
  simp only [ownValue, Option.map_eq_some'] at h
  obtain ⟨entry, hfind, hcell⟩ := h
  have hmem := List.mem_of_find?_eq_some hfind
  have hkey : entry.1 = key := by simpa using List.find?_some hfind
  have : entry = (key, cell) := Prod.ext hkey hcell
  rw [← this]; exact hmem

theorem map_fst_setOwn {α : Type} (object : JsObject α) (key : String) (cell : Cell α) :
    (setOwn object key cell).map Prod.fst = object.map Prod.fst := by
  unfold setOwn
  rw [List.map_map]
  apply List.map_congr_left
  intro entry _
  by_cases h : entry.1 = key <;> simp [h]

theorem mem_setOwn {α : Type} (object : JsObject α) (key : String) (cell : Cell α)
    (entry : String × Cell α) (h : entry ∈ setOwn object key cell) :
    (entry = (key, cell) ∧ key ∈ object.map Prod.fst) ∨ (entry ∈ object ∧ entry.1 ≠ key) := by
  obtain ⟨old, hold, heq⟩ := List.mem_map.mp h
  by_cases hk : old.1 = key
  · left
    simp only [hk, if_true] at heq
    exact ⟨heq.symm, List.mem_map.mpr ⟨old, hold, hk⟩⟩
  · right
    simp only [hk, if_false] at heq
    rw [← heq]; exact ⟨hold, hk⟩

theorem proto_mem_inheritedKeys : "__proto__" ∈ inheritedKeys := by decide

/-- For a key that is not an inherited property name, the accumulation is
the one of a dictionary of numbers. -/
theorem accumulate_plain {α : Type} [DecidableEq α] [AddMonoid α] (object : JsObject α)
    (key : String) (amount : α) (hkey : key ∉ inheritedKeys) :
    accumulate object key amount =
      match ownValue object key with
      | some (.number value) => setOwn object key (.number (value + amount))
      | some .text => object
      | none => object ++ [(key, .number amount)] := by
  have hproto : key ≠ "__proto__" := fun hc => hkey (hc ▸ proto_mem_inheritedKeys)
  unfold accumulate
  cases h : ownValue object key with
  | none => simp [hproto, hkey]
  | some cell =>
    cases cell with
    | text => rfl
    | number value =>
      by_cases hv : value = 0
      · simp [hv]
      · simp [hv]

/-! ## The revenue series -/

theorem salesByDate_append (device : Device) (range : DateRange) (fed : List Sale)
    (sale : Sale) :
    salesByDate device range (fed ++ [sale])
      = accumulate (salesByDate device range fed) (dateKey device range sale) sale.total := by
  simp [salesByDate, List.foldl_append]

theorem bucketTotal_append (device : Device) (range : DateRange) (fed : List Sale)
    (sale : Sale) (key : String) :
    bucketTotal device range (fed ++ [sale]) key
      = bucketTotal device range fed key
        + (if dateKey device range sale = key then sale.total else 0) := by
  unfold bucketTotal
  rw [List.filter_append, List.map_append, List.sum_append]
  by_cases h : dateKey device range sale = key <;> simp [List.filter_cons, h]

theorem bucketTotal_eq_zero (device : Device) (range : DateRange) (fed : List Sale)
    (key : String) (h : ∀ sale ∈ fed, dateKey device range sale ≠ key) :
    bucketTotal device range fed key = 0 := by
  unfold bucketTotal
  have : (fed.filter fun sale => decide (dateKey device range sale = key)) = [] := by
    rw [List.filter_eq_nil_iff]
    intro sale hsale
    simpa using h sale hsale
  rw [this]; rfl

/-- The object built by the `forEach`: one own property per bucket key of
the sales, holding the sum of the totals of the sales with that key. -/
theorem salesByDate_buckets (device : Device) (range : DateRange) (fed : List Sale)
    (hkeys : ∀ sale ∈ fed, dateKey device range sale ∉ inheritedKeys) :
    ((salesByDate device range fed).map Prod.fst).Nodup ∧
    (∀ key, key ∈ (salesByDate device range fed).map Prod.fst ↔
      ∃ sale ∈ fed, dateKey device range sale = key) ∧
    (∀ entry ∈ salesByDate device range fed,
      entry.2 = .number (bucketTotal device range fed entry.1)) := by
  induction fed using List.reverseRecOn with
  | nil => simp [salesByDate]
  | append_singleton fed sale ih =>
    obtain ⟨hnd, hset, hval⟩ := ih (fun x hx => hkeys x (List.mem_append_left _ hx))
    have hk := hkeys sale (List.mem_append_right _ (List.mem_singleton.mpr rfl))
    rw [salesByDate_append, accumulate_plain _ _ _ hk]
    cases hown : ownValue (salesByDate device range fed) (dateKey device range sale) with
    | none =>
      have hnot := ownValue_eq_none _ _ hown
      have hnone : ∀ x ∈ fed, dateKey device range x ≠ dateKey device range sale := by
        intro x hx hc
        exact hnot ((hset _).mpr ⟨x, hx, hc⟩)
      refine ⟨?_, ?_, ?_⟩
      · simp only [List.map_append, List.map_cons, List.map_nil]
        rw [List.nodup_append]
        refine ⟨hnd, List.nodup_singleton _, ?_⟩
        intro x hx hx2
        rw [List.mem_singleton] at hx2
        exact hnot (hx2 ▸ hx)
      · intro key
        simp only [List.map_append, List.map_cons, List.map_nil, List.mem_append,
          List.mem_singleton, hset]
        constructor
        · rintro (⟨x, hx, hxk⟩ | h)
          · exact ⟨x, Or.inl hx, hxk⟩
          · exact ⟨sale, Or.inr rfl, h.symm⟩
        · rintro ⟨x, hx | hx, hxk⟩
          · exact Or.inl ⟨x, hx, hxk⟩
          · right; rw [← hxk, hx]
      · intro entry hentry
        rcases List.mem_append.mp hentry with h | h
        · have hne : dateKey device range sale ≠ entry.1 := by
            intro hc
            exact hnot (hc ▸ List.mem_map.mpr ⟨entry, h, rfl⟩)
          rw [bucketTotal_append, if_neg hne, add_zero]
          exact hval entry h
        · rw [List.mem_singleton] at h
          subst h
          simp only
          rw [bucketTotal_append, if_pos rfl, bucketTotal_eq_zero _ _ _ _ hnone, zero_add]
    | some cell =>
      have hmem := ownValue_eq_some _ _ _ hown
      have hcell := hval _ hmem
      simp only at hcell
      subst hcell
      simp only
      refine ⟨?_, ?_, ?_⟩
      · rw [map_fst_setOwn]; exact hnd
      · intro key
        rw [map_fst_setOwn, hset]
        constructor
        · rintro ⟨x, hx, hxk⟩
          exact ⟨x, List.mem_append_left _ hx, hxk⟩
        · rintro ⟨x, hx, hxk⟩
          rcases List.mem_append.mp hx with h | h
          · exact ⟨x, h, hxk⟩
          · rw [List.mem_singleton] at h
            subst h
            exact (hset _).mp (hxk ▸ List.mem_map.mpr ⟨_, hmem, rfl⟩)
      · intro entry hentry
        rcases mem_setOwn _ _ _ _ hentry with ⟨h, _⟩ | ⟨h, hne⟩
        · subst h
          simp only
          rw [bucketTotal_append, if_pos rfl]
        · rw [bucketTotal_append, if_neg (Ne.symm hne), add_zero]
          exact hval entry h
/-- The order of `Object.entries` is a rearrangement of the own properties. -/
theorem ownEntries_perm {α : Type} (object : JsObject α) :
    (ownEntries object).Perm object := by
  unfold ownEntries
  exact ((List.perm_insertionSort _ _).append_right _).trans (List.filter_append_perm _ _)

theorem sum_map_ite_eq (keys : List String) (key : String) (amount : ℚ)
    (hnd : keys.Nodup) (hmem : key ∈ keys) :
    (keys.map fun k => if key = k then amount else 0).sum = amount := by
  induction keys with
  | nil => simp at hmem
  | cons a rest ih =>
    rw [List.nodup_cons] at hnd
    rw [List.map_cons, List.sum_cons]
    by_cases h : key = a
    · have hzero : (rest.map fun k => if key = k then amount else 0) = rest.map fun _ => 0 := by
        apply List.map_congr_left
        intro k hk
        have : key ≠ k := fun hc => hnd.1 (h ▸ hc ▸ hk)
        simp [this]
      rw [if_pos h, hzero]; simp
    · have hrest : key ∈ rest := by
        rcases List.mem_cons.mp hmem with h2 | h2
        · exact absurd h2 h
        · exact h2
      rw [if_neg h, ih hnd.2 hrest, zero_add]

theorem bucketTotal_cons (device : Device) (range : DateRange) (fed : List Sale)
    (sale : Sale) (key : String) :
    bucketTotal device range (sale :: fed) key
      = (if dateKey device range sale = key then sale.total else 0)
        + bucketTotal device range fed key := by
  unfold bucketTotal
  by_cases h : dateKey device range sale = key <;> simp [List.filter_cons, h]

/-- Over distinct keys that cover the sales, the bucket sums add up to the
sum of the totals. -/
theorem sum_bucketTotal (device : Device) (range : DateRange) (keys : List String)
    (hnd : keys.Nodup) :
    ∀ fed : List Sale, (∀ sale ∈ fed, dateKey device range sale ∈ keys) →
      (keys.map (bucketTotal device range fed)).sum = (fed.map fun sale => sale.total).sum := by
  intro fed
  induction fed with
  | nil =>
    intro _
    have : keys.map (bucketTotal device range []) = keys.map fun _ => (0 : ℚ) := by
      apply List.map_congr_left; intro k _; rfl
    rw [this]; simp
  | cons sale rest ih =>
    intro hcover
    have hfun : bucketTotal device range (sale :: rest)
        = fun key => (if dateKey device range sale = key then sale.total else 0)
            + bucketTotal device range rest key := by
      funext key; exact bucketTotal_cons device range rest sale key
    rw [hfun, List.sum_map_add,
      sum_map_ite_eq keys _ sale.total hnd (hcover sale (List.mem_cons_self _ _)),
      ih (fun x hx => hcover x (List.mem_cons_of_mem _ hx))]
    simp

/-- C19 (as stated, refuted): a sale can be added to no bucket, or to a
bucket that does not hold a sum.  In daily mode the bucket key is the date
text: for the text `__proto__` the assignment to the accumulator is ignored
and the one sale fed yields the placeholder with value 0; for the text
`constructor` the bucket holds a text (the inherited function joined with the
total), not the total. -/
theorem revenue_lost_under_inherited_key :
    getFilteredSales mayDevice .daily "__proto__" [protoSale] = [protoSale] ∧
    dateKey mayDevice .daily protoSale = "__proto__" ∧
    getSalesData mayDevice .daily "__proto__" [protoSale]
      = { labels := ["Nenhum dado"], data := [.number 0] } ∧
    getFilteredSales mayDevice .daily "constructor" [constructorSale] = [constructorSale] ∧
    getSalesData mayDevice .daily "constructor" [constructorSale]
      = { labels := ["constructor"], data := [.text] } := by
  refine ⟨rfl, by decide, rfl, rfl, rfl⟩

/-- C19 (amended): the revenue series conserves revenue when no bucket key
is the name of an inherited object property.  For the sales fed to the
series: an empty input gives the placeholder labelled "Nenhum dado" with value
0; otherwise the labels are pairwise distinct, they are exactly the bucket
keys of the sales (every sale falls into one bucket), the value under each
label is the sum of the totals of the sales with that key, and these values
add up to the sum of the totals of the sales. -/
theorem revenue_series_conserves (device : Device) (range : DateRange) (fed : List Sale)
    (hkeys : ∀ sale ∈ fed, dateKey device range sale ∉ inheritedKeys) :
    (fed = [] →
      salesSeries device range fed = { labels := ["Nenhum dado"], data := [.number 0] }) ∧
    (fed ≠ [] →
      (salesSeries device range fed).labels.Nodup ∧
      (∀ label, label ∈ (salesSeries device range fed).labels ↔
        ∃ sale ∈ fed, dateKey device range sale = label) ∧
      (salesSeries device range fed).data
        = (salesSeries device range fed).labels.map
            (fun label => Cell.number (bucketTotal device range fed label)) ∧
      ((salesSeries device range fed).labels.map (bucketTotal device range fed)).sum
        = (fed.map fun sale => sale.total).sum) := by
  constructor
  · intro h; subst h; rfl
  · intro hne
    obtain ⟨hnd, hset, hval⟩ := salesByDate_buckets device range fed hkeys
    have hperm := ownEntries_perm (salesByDate device range fed)
    have hpermKeys := hperm.map Prod.fst
    obtain ⟨first, hfirst⟩ := List.exists_mem_of_ne_nil fed hne
    have hkeymem : dateKey device range first
        ∈ (ownEntries (salesByDate device range fed)).map Prod.fst :=
      hpermKeys.mem_iff.mpr ((hset _).mpr ⟨first, hfirst, rfl⟩)
    have hlen : ¬ (ownEntries (salesByDate device range fed)).length = 0 := by
      intro hc
      rw [List.length_eq_zero] at hc
      rw [hc] at hkeymem
      simp at hkeymem
    have hlabels : (salesSeries device range fed).labels
        = (ownEntries (salesByDate device range fed)).map Prod.fst := by
      simp [salesSeries, hlen]
    have hdata : (salesSeries device range fed).data
        = (ownEntries (salesByDate device range fed)).map Prod.snd := by
      simp [salesSeries, hlen]
    have hndLabels : ((ownEntries (salesByDate device range fed)).map Prod.fst).Nodup :=
      hpermKeys.nodup_iff.mpr hnd
    rw [hlabels, hdata]
    refine ⟨hndLabels, ?_, ?_, ?_⟩
    · intro label
      rw [hpermKeys.mem_iff, hset]
    · rw [List.map_map]
      apply List.map_congr_left
      intro entry hentry
      exact hval entry (hperm.mem_iff.mp hentry)
    · apply sum_bucketTotal device range _ hndLabels
      intro sale hsale
      exact hpermKeys.mem_iff.mpr ((hset _).mpr ⟨sale, hsale, rfl⟩)

/-- Witness of C19 (amended): three sales over two months, in monthly mode. -/
theorem revenue_series_conserves_witness :
    springSales ≠ [] ∧
    (salesSeries mayDevice .monthly springSales).labels = ["2024-05", "2024-04"] ∧
    (salesSeries mayDevice .monthly springSales).data
      = (salesSeries mayDevice .monthly springSales).labels.map
          (fun label => Cell.number (bucketTotal mayDevice .monthly springSales label)) ∧
    ((salesSeries mayDevice .monthly springSales).labels.map
        (bucketTotal mayDevice .monthly springSales)).sum
      = (springSales.map fun sale => sale.total).sum :=
  have h := (revenue_series_conserves mayDevice .monthly springSales (by decide)).2 (by decide)
  ⟨by decide, by decide, h.2.2.1, h.2.2.2⟩

/-! ## Top selling products -/

theorem firstAppearances_append (names : List String) (name : String) :
    firstAppearances (names ++ [name])
      = if name ∈ firstAppearances names then firstAppearances names
        else firstAppearances names ++ [name] := by
  simp [firstAppearances, List.foldl_append]

theorem mem_firstAppearances (names : List String) :
    ∀ name : String, name ∈ firstAppearances names ↔ name ∈ names := by
  induction names using List.reverseRecOn with
  | nil => intro name; simp [firstAppearances]
  | append_singleton names last ih =>
    intro name
    rw [firstAppearances_append]
    by_cases h : last ∈ firstAppearances names
    · rw [if_pos h, List.mem_append, List.mem_singleton, ih]
      constructor
      · intro h2; exact Or.inl h2
      · rintro (h2 | h2)
        · exact h2
        · rw [h2]; exact (ih last).mp h
    · rw [if_neg h, List.mem_append, List.mem_append, ih]

theorem nodup_firstAppearances (names : List String) : (firstAppearances names).Nodup := by
  induction names using List.reverseRecOn with
  | nil => simp [firstAppearances]
  | append_singleton names last ih =>
    rw [firstAppearances_append]
    by_cases h : last ∈ firstAppearances names
    · rw [if_pos h]; exact ih
    · rw [if_neg h, List.nodup_append]
      refine ⟨ih, List.nodup_singleton _, ?_⟩
      intro x hx hx2
      rw [List.mem_singleton] at hx2
      exact h (hx2 ▸ hx)

/-- The sum of the amounts filed under a key. -/
theorem sum_amounts_append {α : Type} [AddCommMonoid α] (pairs : List (String × α))
    (last : String × α) (key : String) :
    (((pairs ++ [last]).filter fun p => decide (p.1 = key)).map Prod.snd).sum
      = ((pairs.filter fun p => decide (p.1 = key)).map Prod.snd).sum
        + (if last.1 = key then last.2 else 0) := by
  rw [List.filter_append, List.map_append, List.sum_append]
  by_cases h : last.1 = key <;> simp [List.filter_cons, h]

/-- The accumulator object of a list of keyed amounts, none of them under an
inherited property name: its keys are the distinct keys in order of first
appearance and each value is the sum of the amounts under the key. -/
theorem accumulate_foldl {α : Type} [DecidableEq α] [AddCommMonoid α]
    (pairs : List (String × α)) (hkeys : ∀ p ∈ pairs, p.1 ∉ inheritedKeys) :
    ((pairs.foldl (fun object p => accumulate object p.1 p.2) []).map Prod.fst
      = firstAppearances (pairs.map Prod.fst)) ∧
    (∀ entry ∈ pairs.foldl (fun object p => accumulate object p.1 p.2) ([] : JsObject α),
      entry.2 = .number
        (((pairs.filter fun p => decide (p.1 = entry.1)).map Prod.snd).sum)) := by
  induction pairs using List.reverseRecOn with
  | nil => simp [firstAppearances]
  | append_singleton pairs last ih =>
    obtain ⟨hfst, hval⟩ := ih (fun x hx => hkeys x (List.mem_append_left _ hx))
    have hk := hkeys last (List.mem_append_right _ (List.mem_singleton.mpr rfl))
    rw [List.foldl_append, List.foldl_cons, List.foldl_nil, accumulate_plain _ _ _ hk,
      List.map_append, List.map_cons, List.map_nil, firstAppearances_append]
    cases hown : ownValue (pairs.foldl (fun object p => accumulate object p.1 p.2) []) last.1 with
    | none =>
      have hnot := ownValue_eq_none _ _ hown
      have hnot2 : last.1 ∉ firstAppearances (pairs.map Prod.fst) := hfst ▸ hnot
      have hnone : ∀ p ∈ pairs, p.1 ≠ last.1 := by
        intro p hp hc
        exact hnot2 ((mem_firstAppearances _ _).mpr (List.mem_map.mpr ⟨p, hp, hc⟩))
      refine ⟨?_, ?_⟩
      · simp only [List.map_append, List.map_cons, List.map_nil, hfst, if_neg hnot2]
      · intro entry hentry
        rw [sum_amounts_append]
        rcases List.mem_append.mp hentry with h | h
        · have hne : last.1 ≠ entry.1 := by
            intro hc
            exact hnot (hc ▸ List.mem_map.mpr ⟨entry, h, rfl⟩)
          rw [if_neg hne, add_zero]
          exact hval entry h
        · rw [List.mem_singleton] at h
          subst h
          have hzero : (pairs.filter fun p => decide (p.1 = last.1)) = [] := by
            rw [List.filter_eq_nil_iff]
            intro p hp
            simpa using hnone p hp
          simp [hzero]
    | some cell =>
      have hmem := ownValue_eq_some _ _ _ hown
      have hcell := hval _ hmem
      simp only at hcell
      rw [hcell]
      simp only
      have hin : last.1 ∈ firstAppearances (pairs.map Prod.fst) :=
        hfst ▸ List.mem_map.mpr ⟨_, hmem, rfl⟩
      refine ⟨?_, ?_⟩
      · simp only [map_fst_setOwn, hfst, if_pos hin]
      · intro entry hentry
        rw [sum_amounts_append]
        rcases mem_setOwn _ _ _ _ hentry with ⟨h, _⟩ | ⟨h, hne⟩
        · subst h
          simp
        · rw [if_neg (Ne.symm hne), add_zero]
          exact hval entry h

theorem productSales_eq_foldl (s : AppState) :
    productSales s
      = ((ledgerLines s).map fun item => (item.name, item.quantity)).foldl
          (fun object p => accumulate object p.1 p.2) [] := by
  unfold productSales ledgerLines
  rw [List.foldl_map]
  generalize ([] : JsObject Int) = start
  induction s.sales generalizing start with
  | nil => rfl
  | cons sale rest ih =>
    rw [List.foldl_cons, List.flatMap_cons, List.foldl_append, ih]

theorem numberEntries_of_numbers {α : Type} (f : String → α) :
    ∀ object : JsObject α, (∀ entry ∈ object, entry.2 = .number (f entry.1)) →
      numberEntries object = some (object.map fun entry => (entry.1, f entry.1))
  | [], _ => rfl
  | (key, cell) :: rest, h => by
    have hcell : cell = .number (f key) := h (key, cell) (List.mem_cons_self _ _)
    subst hcell
    rw [numberEntries,
      numberEntries_of_numbers f rest (fun e he => h e (List.mem_cons_of_mem _ he))]
    rfl
theorem map_fst_ownEntries {α : Type} (object : JsObject α) (names : List String)
    (h : object.map Prod.fst = firstAppearances names) :
    (ownEntries object).map Prod.fst = entriesOrder names := by
  unfold ownEntries entriesOrder
  rw [List.map_append,
    List.map_insertionSort _ (fun a b : String => (arrayIndex a).getD 0 ≤ (arrayIndex b).getD 0)
      Prod.fst _ (fun a _ b _ => Iff.rfl),
    ← h, List.filter_map, List.filter_map]
  rfl

theorem nodup_entriesOrder (names : List String) : (entriesOrder names).Nodup := by
  have hperm : (entriesOrder names).Perm (firstAppearances names) := by
    unfold entriesOrder
    exact ((List.perm_insertionSort _ _).append_right _).trans (List.filter_append_perm _ _)
  exact hperm.nodup_iff.mpr (nodup_firstAppearances names)

theorem mem_entriesOrder (names : List String) (name : String) :
    name ∈ entriesOrder names ↔ name ∈ names := by
  have hperm : (entriesOrder names).Perm (firstAppearances names) := by
    unfold entriesOrder
    exact ((List.perm_insertionSort _ _).append_right _).trans (List.filter_append_perm _ _)
  rw [hperm.mem_iff, mem_firstAppearances]

/-- In a list without duplicates two elements cannot come in both orders. -/
theorem pair_sublist_unique {α : Type} (a b : α) :
    ∀ l : List α, l.Nodup → List.Sublist [a, b] l → List.Sublist [b, a] l → False := by
  intro l hnd hab hba
  induction l with
  | nil => cases hab
  | cons x rest ih =>
    rw [List.nodup_cons] at hnd
    cases hab with
    | cons _ hab2 =>
      cases hba with
      | cons _ hba2 => exact ih hnd.2 hab2 hba2
      | cons₂ _ hba2 =>
        exact hnd.1 (hab2.subset (List.mem_cons_of_mem _ (List.mem_singleton.mpr rfl)))
    | cons₂ _ hab2 =>
      cases hba with
      | cons _ hba2 =>
        exact hnd.1 (hba2.subset (List.mem_cons_of_mem _ (List.mem_singleton.mpr rfl)))
      | cons₂ _ hba2 =>
        exact hnd.1 (hab2.subset (List.mem_singleton.mpr rfl))

/-- Two distinct elements of a list come in one order or the other. -/
theorem pair_sublist_total {α : Type} (a b : α) (hne : a ≠ b) :
    ∀ l : List α, a ∈ l → b ∈ l → List.Sublist [a, b] l ∨ List.Sublist [b, a] l := by
  intro l
  induction l with
  | nil => intro ha; cases ha
  | cons x rest ih =>
    intro ha hb
    rcases List.mem_cons.mp ha with ha1 | ha1
    · rcases List.mem_cons.mp hb with hb1 | hb1
      · exact absurd (ha1.trans hb1.symm) hne
      · left
        rw [ha1]
        exact List.Sublist.cons₂ _ (List.singleton_sublist.mpr hb1)
    · rcases List.mem_cons.mp hb with hb1 | hb1
      · right
        rw [hb1]
        exact List.Sublist.cons₂ _ (List.singleton_sublist.mpr ha1)
      · rcases ih ha1 hb1 with h | h
        · exact Or.inl (List.Sublist.cons _ h)
        · exact Or.inr (List.Sublist.cons _ h)

/-- The stable descending sort keeps tied entries in their order: a pair of
tied entries of the sorted list stands in the same order in the input. -/
theorem tie_order_of_sorted (entries : List (String × Int))
    (hnd : (entries.map Prod.fst).Nodup) (a b : String × Int)
    (hsub : List.Sublist [a, b] (entries.insertionSort (fun x y => x.2 ≥ y.2))) (htie : a.2 = b.2) :
    List.Sublist [a, b] entries := by
  have hperm := List.perm_insertionSort (fun x y : String × Int => x.2 ≥ y.2) entries
  have hndEntries : entries.Nodup := List.Nodup.of_map _ hnd
  have hndSorted : (entries.insertionSort (fun x y => x.2 ≥ y.2)).Nodup :=
    hperm.nodup_iff.mpr hndEntries
  have ha : a ∈ entries := hperm.mem_iff.mp (hsub.subset (List.mem_cons_self _ _))
  have hb : b ∈ entries :=
    hperm.mem_iff.mp (hsub.subset (List.mem_cons_of_mem _ (List.mem_singleton.mpr rfl)))
  have hne : a ≠ b := by
    intro hc
    subst hc
    have : [a, a].Nodup := hndSorted.sublist hsub
    simp at this
  rcases pair_sublist_total a b hne entries ha hb with h | h
  · exact h
  · exfalso
    have hstable : List.Sublist [b, a] (entries.insertionSort (fun x y => x.2 ≥ y.2)) :=
      @List.pair_sublist_insertionSort (String × Int) (fun x y => x.2 ≥ y.2) _ b a entries
        (by show b.2 ≥ a.2; omega) h
    exact pair_sublist_unique a b _ hndSorted hsub hstable

theorem sorted_by_total (entries : List (String × Int)) :
    (entries.insertionSort (fun x y => x.2 ≥ y.2)).Pairwise (fun x y => x.2 ≥ y.2) := by
  haveI : IsTotal (String × Int) (fun x y => x.2 ≥ y.2) := ⟨fun x y => le_total y.2 x.2⟩
  haveI : IsTrans (String × Int) (fun x y => x.2 ≥ y.2) :=
    ⟨fun x y z h1 h2 => le_trans h2 h1⟩
  exact List.sorted_insertionSort _ entries

/-- The entries of `productSales` that `sort` receives, for a ledger without
inherited property names: the names in the order of `Object.entries`, each
with the sum of the quantities of its lines. -/
theorem numberEntries_productSales (s : AppState)
    (hnames : ∀ line ∈ ledgerLines s, line.name ∉ inheritedKeys) :
    numberEntries (ownEntries (productSales s))
      = some ((entriesOrder ((ledgerLines s).map fun line => line.name)).map
          fun name => (name, productTotal s name)) := by
  have hpairs : ∀ p ∈ (ledgerLines s).map (fun item => (item.name, item.quantity)),
      p.1 ∉ inheritedKeys := by
    intro p hp
    obtain ⟨line, hline, rfl⟩ := List.mem_map.mp hp
    exact hnames line hline
  obtain ⟨hfst, hval⟩ := accumulate_foldl _ hpairs
  rw [← productSales_eq_foldl] at hfst hval
  have hnamesEq : ((ledgerLines s).map fun item => (item.name, item.quantity)).map Prod.fst
      = (ledgerLines s).map fun line => line.name := by
    rw [List.map_map]; rfl
  rw [hnamesEq] at hfst
  have htotal : ∀ key : String,
      ((((ledgerLines s).map fun item => (item.name, item.quantity)).filter
        fun p => decide (p.1 = key)).map Prod.snd).sum = productTotal s key := by
    intro key
    unfold productTotal
    rw [List.filter_map, List.map_map]
    rfl
  have hval2 : ∀ entry ∈ ownEntries (productSales s),
      entry.2 = .number (productTotal s entry.1) := by
    intro entry hentry
    rw [hval entry ((ownEntries_perm _).mem_iff.mp hentry), htotal]
  rw [numberEntries_of_numbers (productTotal s) _ hval2, ← map_fst_ownEntries _ _ hfst,
    List.map_map]
  rfl

/-- C20 (as stated, refuted): ties do not follow first appearance, and a
product can be left out whatever its total.  One pair of the jeans 505 is
sold before one pair of the 501, yet the 501 comes first, because
`Object.entries` lists names that are array indices in ascending order; and
the product named `__proto__`, sold three times, is missing from the result
next to the shirt sold once, because the assignment to the accumulator under
that name is ignored. -/
theorem top_products_tie_and_left_out :
    (ledgerLines jeansSold).map (fun line => (line.name, line.quantity))
      = [("505", 1), ("501", 1)] ∧
    getTopSellingProducts jeansSold = some [("501", 1), ("505", 1)] ∧
    (ledgerLines protoSold).map (fun line => (line.name, line.quantity))
      = [("__proto__", 3), ("Shirt", 1)] ∧
    getTopSellingProducts protoSold = some [("Shirt", 1)] := by
  decide

/-- C20 (amended): the top selling products of a ledger none of whose line
names is an inherited property name.  The result has at most 5 pairs with
pairwise distinct names; each pair is a name of the ledger with the sum of
the quantities of all its lines across all sales; the pairs are in descending
order of that sum; tied pairs stand in the order of `Object.entries` (names
that are array indices first, in ascending numeric order, then the other
names in order of first appearance); and a name of the ledger that is left
out has a sum no larger than that of any pair of the result, which then has
5 pairs. -/
theorem top_products (s : AppState)
    (hnames : ∀ line ∈ ledgerLines s, line.name ∉ inheritedKeys) :
    ∃ top : List (String × Int), getTopSellingProducts s = some top ∧
      top.length ≤ 5 ∧
      (top.map Prod.fst).Nodup ∧
      (∀ pair ∈ top, (∃ line ∈ ledgerLines s, line.name = pair.1) ∧
        pair.2 = productTotal s pair.1) ∧
      top.Pairwise (fun a b => a.2 ≥ b.2) ∧
      (∀ a b : String × Int, List.Sublist [a, b] top → a.2 = b.2 →
        List.Sublist [a.1, b.1] (entriesOrder ((ledgerLines s).map fun line => line.name))) ∧
      (∀ line ∈ ledgerLines s, line.name ∉ top.map Prod.fst →
        top.length = 5 ∧ ∀ pair ∈ top, productTotal s line.name ≤ pair.2) := by
  have hentries := numberEntries_productSales s hnames
  have hndOrder := nodup_entriesOrder ((ledgerLines s).map fun line => line.name)
  have hfstEntries :
      ((entriesOrder ((ledgerLines s).map fun line => line.name)).map
        fun name => (name, productTotal s name)).map Prod.fst
        = entriesOrder ((ledgerLines s).map fun line => line.name) := by
    rw [List.map_map]
    exact List.map_id _
  have hndEntries :
      (((entriesOrder ((ledgerLines s).map fun line => line.name)).map
        fun name => (name, productTotal s name)).map Prod.fst).Nodup := by
    rw [hfstEntries]; exact hndOrder
  have hperm := List.perm_insertionSort (fun x y : String × Int => x.2 ≥ y.2)
    ((entriesOrder ((ledgerLines s).map fun line => line.name)).map
      fun name => (name, productTotal s name))
  have hsorted := sorted_by_total
    ((entriesOrder ((ledgerLines s).map fun line => line.name)).map
      fun name => (name, productTotal s name))
  have htake := List.take_sublist 5
    (((entriesOrder ((ledgerLines s).map fun line => line.name)).map
      fun name => (name, productTotal s name)).insertionSort (fun x y => x.2 ≥ y.2))
  have hmemEntries : ∀ pair : String × Int,
      pair ∈ (entriesOrder ((ledgerLines s).map fun line => line.name)).map
        (fun name => (name, productTotal s name)) ↔
      (∃ line ∈ ledgerLines s, line.name = pair.1) ∧ pair.2 = productTotal s pair.1 := by
    intro pair
    rw [List.mem_map]
    constructor
    · rintro ⟨name, hname, rfl⟩
      rw [mem_entriesOrder, List.mem_map] at hname
      exact ⟨hname, rfl⟩
    · rintro ⟨hline, hsum⟩
      refine ⟨pair.1, ?_, Prod.ext rfl hsum.symm⟩
      rw [mem_entriesOrder, List.mem_map]
      exact hline
  refine ⟨_, by rw [getTopSellingProducts, hentries]; rfl, ?_, ?_, ?_, ?_, ?_, ?_⟩
  · exact List.length_take_le _ _
  · exact (hperm.map Prod.fst).nodup_iff.mpr hndEntries |>.sublist (htake.map Prod.fst)
  · intro pair hpair
    exact (hmemEntries pair).mp (hperm.mem_iff.mp (htake.subset hpair))
  · exact hsorted.sublist htake
  · intro a b hsub htie
    have h := tie_order_of_sorted _ hndEntries a b (hsub.trans htake) htie
    have h2 := h.map Prod.fst
    rw [hfstEntries] at h2
    exact h2
  · intro line hline hout
    have hin : (line.name, productTotal s line.name) ∈
        ((entriesOrder ((ledgerLines s).map fun line => line.name)).map
          fun name => (name, productTotal s name)).insertionSort (fun x y => x.2 ≥ y.2) :=
      hperm.mem_iff.mpr ((hmemEntries _).mpr ⟨⟨line, hline, rfl⟩, rfl⟩)
    rw [← List.take_append_drop 5
      (((entriesOrder ((ledgerLines s).map fun line => line.name)).map
        fun name => (name, productTotal s name)).insertionSort (fun x y => x.2 ≥ y.2)),
      List.mem_append] at hin
    have hdrop : (line.name, productTotal s line.name) ∈ List.drop 5
        (((entriesOrder ((ledgerLines s).map fun line => line.name)).map
          fun name => (name, productTotal s name)).insertionSort (fun x y => x.2 ≥ y.2)) := by
      rcases hin with h | h
      · exact absurd (List.mem_map.mpr ⟨_, h, rfl⟩) hout
      · exact h
    constructor
    · have hlen : 5 < (((entriesOrder ((ledgerLines s).map fun line => line.name)).map
          fun name => (name, productTotal s name)).insertionSort
            (fun x y => x.2 ≥ y.2)).length := by
        by_contra hc
        rw [List.drop_of_length_le (by omega)] at hdrop
        simp at hdrop
      rw [List.length_take]
      omega
    · intro pair hpair
      have hpw := hsorted
      rw [← List.take_append_drop 5
        (((entriesOrder ((ledgerLines s).map fun line => line.name)).map
          fun name => (name, productTotal s name)).insertionSort (fun x y => x.2 ≥ y.2)),
        List.pairwise_append] at hpw
      exact hpw.2.2 pair hpair _ hdrop

/-- Witness of C20 (amended): a shirt and two hats are sold, then a shirt;
both names total 2 and the shirt, which appeared first, comes first. -/
theorem top_products_witness :
    (ledgerLines shirtsAndHats).map (fun line => (line.name, line.quantity))
      = [("Shirt", 1), ("Hat", 2), ("Shirt", 1)] ∧
    getTopSellingProducts shirtsAndHats = some [("Shirt", 2), ("Hat", 2)] ∧
    ∃ top : List (String × Int), getTopSellingProducts shirtsAndHats = some top ∧
      top.length ≤ 5 ∧
      (top.map Prod.fst).Nodup ∧
      (∀ pair ∈ top, (∃ line ∈ ledgerLines shirtsAndHats, line.name = pair.1) ∧
        pair.2 = productTotal shirtsAndHats pair.1) ∧
      top.Pairwise (fun a b => a.2 ≥ b.2) ∧
      (∀ a b : String × Int, List.Sublist [a, b] top → a.2 = b.2 →
        List.Sublist [a.1, b.1]
          (entriesOrder ((ledgerLines shirtsAndHats).map fun line => line.name))) ∧
      (∀ line ∈ ledgerLines shirtsAndHats, line.name ∉ top.map Prod.fst →
        top.length = 5 ∧ ∀ pair ∈ top, productTotal shirtsAndHats line.name ≤ pair.2) :=
  ⟨by decide, by decide, top_products shirtsAndHats (by decide)⟩

/-! ## Stock levels -/

/-- Inserting an item into a list by descending quantity puts it in front of
the items of its own quantity and leaves the items of the other quantities
as they were. -/
theorem filter_orderedInsert_quantity (quantity : Int) (a : Item) :
    ∀ l : List Item,
      (List.orderedInsert (fun x y : Item => x.quantity ≥ y.quantity) a l).filter
          (fun item => decide (item.quantity = quantity))
        = if a.quantity = quantity then
            a :: l.filter (fun item => decide (item.quantity = quantity))
          else l.filter (fun item => decide (item.quantity = quantity)) := by
  intro l
  induction l with
  | nil => by_cases h : a.quantity = quantity <;> simp [h]
  | cons b rest ih =>
    rw [List.orderedInsert]
    by_cases hr : a.quantity ≥ b.quantity
    · rw [if_pos hr]
      by_cases h : a.quantity = quantity <;> simp [List.filter_cons, h]
    · rw [if_neg hr, List.filter_cons, ih]
      by_cases h : a.quantity = quantity
      · have hb : ¬ b.quantity = quantity := by omega
        simp [h, hb, List.filter_cons]
      · by_cases hb : b.quantity = quantity <;> simp [h, hb, List.filter_cons]

/-- The stable sort by descending quantity keeps the items of each quantity
in their order. -/
theorem filter_insertionSort_quantity (quantity : Int) :
    ∀ l : List Item,
      (l.insertionSort (fun x y : Item => x.quantity ≥ y.quantity)).filter
          (fun item => decide (item.quantity = quantity))
        = l.filter (fun item => decide (item.quantity = quantity)) := by
  intro l
  induction l with
  | nil => rfl
  | cons a rest ih =>
    rw [List.insertionSort, filter_orderedInsert_quantity, ih]
    by_cases h : a.quantity = quantity <;> simp [List.filter_cons, h]

theorem sorted_by_quantity (l : List Item) :
    (l.insertionSort (fun x y : Item => x.quantity ≥ y.quantity)).Pairwise
      (fun x y => x.quantity ≥ y.quantity) := by
  haveI : IsTotal Item (fun x y => x.quantity ≥ y.quantity) :=
    ⟨fun x y => le_total y.quantity x.quantity⟩
  haveI : IsTrans Item (fun x y => x.quantity ≥ y.quantity) :=
    ⟨fun x y z h1 h2 => le_trans h2 h1⟩
  exact List.sorted_insertionSort _ l

/-- C21: the items with most stock.  For every catalog the state is left as
it was, and the result, followed by the items it omits, is the catalog
rearranged in descending order of quantity with the items of each quantity in
their catalog order: the result is the first min(5, catalog size) items of
that arrangement, so it is in descending order with ties in catalog order,
each of its items is a catalog item, and no omitted item has a larger
quantity than a returned one. -/
theorem top_stock_items (s : AppState) :
    (getInventoryStatus s).2 = s ∧
    (getInventoryStatus s).1.length = min 5 s.inventory.length ∧
    (∀ item ∈ (getInventoryStatus s).1, item ∈ s.inventory) ∧
    (getInventoryStatus s).1.Pairwise (fun a b => a.quantity ≥ b.quantity) ∧
    (∀ quantity : Int, ∃ later : List Item,
      ((getInventoryStatus s).1.filter fun item => decide (item.quantity = quantity)) ++ later
        = s.inventory.filter fun item => decide (item.quantity = quantity)) ∧
    ∃ omitted : List Item,
      ((getInventoryStatus s).1 ++ omitted).Perm s.inventory ∧
      ((getInventoryStatus s).1 ++ omitted).Pairwise (fun a b => a.quantity ≥ b.quantity) ∧
      (∀ quantity : Int,
        ((getInventoryStatus s).1 ++ omitted).filter (fun item => decide (item.quantity = quantity))
          = s.inventory.filter fun item => decide (item.quantity = quantity)) ∧
      ∀ a ∈ (getInventoryStatus s).1, ∀ b ∈ omitted, b.quantity ≤ a.quantity := by
  have hperm := List.perm_insertionSort (fun x y : Item => x.quantity ≥ y.quantity) s.inventory
  have hsorted := sorted_by_quantity s.inventory
  have hsplit := List.take_append_drop 5
    (s.inventory.insertionSort (fun x y : Item => x.quantity ≥ y.quantity))
  have hresult : (getInventoryStatus s).1
      = (s.inventory.insertionSort (fun x y : Item => x.quantity ≥ y.quantity)).take 5 := rfl
  refine ⟨rfl, ?_, ?_, ?_, ?_, ?_⟩
  · rw [hresult, List.length_take, hperm.length_eq]
  · intro item hitem
    rw [hresult] at hitem
    exact hperm.mem_iff.mp ((List.take_sublist _ _).subset hitem)
  · rw [hresult]
    exact hsorted.sublist (List.take_sublist _ _)
  · intro quantity
    refine ⟨(List.drop 5 (s.inventory.insertionSort
      (fun x y : Item => x.quantity ≥ y.quantity))).filter
        (fun item => decide (item.quantity = quantity)), ?_⟩
    rw [hresult, ← List.filter_append, hsplit, filter_insertionSort_quantity]
  · refine ⟨List.drop 5 (s.inventory.insertionSort
      (fun x y : Item => x.quantity ≥ y.quantity)), ?_, ?_, ?_, ?_⟩
    · rw [hresult, hsplit]; exact hperm
    · rw [hresult, hsplit]; exact hsorted
    · intro quantity
      rw [hresult, hsplit, filter_insertionSort_quantity]
    · intro a ha b hb
      have hpw := hsorted
      rw [← hsplit, List.pairwise_append] at hpw
      exact hpw.2.2 a (hresult ▸ ha) b hb

/-- Witness of C21: a catalog of seven items.  The two items of quantity 9
come first in catalog order, then the item of quantity 7 and the two of
quantity 4; the two items of quantity 2 are omitted, and the catalog keeps
its order. -/
theorem top_stock_items_witness :
    sevenItems.inventory.map (fun item => (item.id, item.quantity))
      = [(1, 4), (2, 9), (3, 2), (4, 9), (5, 4), (6, 7), (7, 2)] ∧
    (getInventoryStatus sevenItems).1.map (fun item => (item.id, item.quantity))
      = [(2, 9), (4, 9), (6, 7), (1, 4), (5, 4)] ∧
    (getInventoryStatus sevenItems).2.inventory = sevenItems.inventory ∧
    (getInventoryStatus sevenItems).1.length = min 5 sevenItems.inventory.length ∧
    (getInventoryStatus sevenItems).1.Pairwise (fun a b => a.quantity ≥ b.quantity) :=
  ⟨by decide, by decide, by rw [(top_stock_items sevenItems).1],
    (top_stock_items sevenItems).2.1, (top_stock_items sevenItems).2.2.2.1⟩

end LueApp
